import Mathlib

/-!
Verification development for the voxara disk-usage scanner
(`src/src-tauri/src/main.rs`).

Shallow embedding conventions:
* Filesystem paths are component lists (`List String`); the absolute root
  `/` is `[]` and `/a/b` is `["a", "b"]`.  `Path::parent` is `dropLast`
  (none for the empty path), `Path::file_name` is the last component.
* Rust `u64`/`usize` byte counts become `Nat` (the scanner only adds and
  compares sizes, so no overflow wrapping is observable below 2^64 and the
  translation keeps the arithmetic exact).
* A compiled `Regex` is abstracted as its matching function
  `String → Bool`; the filter compiler receives the matcher directly
  (regex-compilation failure, `InvalidPattern`, is outside the model).
* `HashMap<PathBuf, V>` used with `entry(..).or_default()` is embedded as a
  total function `List String → V` returning the default value for absent
  keys; `or_default()` insertion is then the identity, and the `get`
  reads in `build_node` coincide with the source's `None ⇒ contribute
  nothing` behaviour because the defaults are all zero / empty.
* Wall-clock constructs (`Instant`, sleeps, thread scheduling) are
  abstracted: the elapsed-interval part of `should_emit_progress` becomes a
  boolean oracle per processed entry, throttling sleeps are no-ops, and the
  cancellation flag becomes an oracle saying what each per-entry relaxed
  load observes.
-/

namespace Voxara

/-! ### String helpers (models of the Rust `str` operations used) -/

/-- Model of Rust `str::to_lowercase` (ASCII case folding, which is all the
scanner's inputs exercise). -/
def lower_string (s : String) : String := ⟨s.data.map Char.toLower⟩

/-- Model of Rust `str::trim`. -/
def trim_string (s : String) : String :=
  ⟨((s.data.dropWhile Char.isWhitespace).reverse.dropWhile Char.isWhitespace).reverse⟩

/-- Model of Rust `str::trim_start_matches('.')`. -/
def trim_leading_dots (s : String) : String := ⟨s.data.dropWhile (· == '.')⟩

/-- Does `pat` occur at the start of `l`? (helper for substring search). -/
def run_at_start : List Char → List Char → Bool
  | _, [] => true
  | [], _ :: _ => false
  | a :: as, b :: bs => a == b && run_at_start as bs

/-- Does `pat` occur contiguously inside `l`? (helper for substring search). -/
def contains_run : List Char → List Char → Bool
  | l, pat =>
    run_at_start l pat ||
      match l with
      | [] => false
      | _ :: as => contains_run as pat

/-- Model of Rust `str::contains` (substring containment). -/
def str_contains (s pat : String) : Bool := contains_run s.data pat.data

/-! ### Paths -/

/-- Model of `Path::to_string_lossy` for our component-list paths. -/
def get_path_string (p : List String) : String :=
  "/" ++ String.intercalate "/" p

/-- Model of `get_entry_name_string`: `file_name()` with the full path string
as fallback (the fallback fires only for the filesystem root). -/
def get_entry_name_string (p : List String) : String :=
  (p.getLast?).getD (get_path_string p)

/-- Model of `get_entry_name_lower`. -/
def get_entry_name_lower (p : List String) : String :=
  lower_string (get_entry_name_string p)

/-- Model of `Path::parent`: drop the last component, none at the root. -/
def path_parent (p : List String) : Option (List String) :=
  match p with
  | [] => none
  | _ :: _ => some p.dropLast

/-- Helper for `Path::extension`: the run of characters after the last dot,
if any dot occurs. -/
def after_last_dot : List Char → Option (List Char)
  | [] => none
  | c :: rest =>
    match after_last_dot rest with
    | some s => some s
    | none => if c == '.' then some rest else none

/-- Model of Rust `Path::extension()` applied to a file name: the portion of
the name after the final `.`, where a single leading dot is part of the stem
(so `.bashrc` has no extension but `.foo.txt` has extension `txt`). -/
def rust_extension (name : String) : Option String :=
  let body : List Char :=
    match name.data with
    | '.' :: rest => rest
    | l => l
  (after_last_dot body).map (fun l => ⟨l⟩)

/-! ### FilterCompiler (`ScanFilters` → `FilterConfig`) -/

/-- Source `ScanFilters` (raw filter criteria), with the two regex patterns
replaced by their compiled matching functions (see header). -/
structure ScanFiltersL where
  include_extensions : List String
  exclude_extensions : List String
  include_names : List String
  exclude_names : List String
  min_size_bytes : Option Nat
  max_size_bytes : Option Nat
  include_regex : Option (String → Bool)
  exclude_regex : Option (String → Bool)
  include_paths : List String
  exclude_paths : List String

/-- Source `FilterFlags`. -/
structure FilterFlags where
  has_includes : Bool
  has_file_excludes : Bool
  has_dir_excludes : Bool
  needs_path : Bool
  needs_name : Bool
  needs_extension : Bool

/-- Source `FilterConfig`.  The `HashSet<String>` of extensions is kept as
the normalized list; only membership is ever queried. -/
structure FilterConfig where
  include_extensions : List String
  exclude_extensions : List String
  include_names : List String
  exclude_names : List String
  min_size_bytes : Option Nat
  max_size_bytes : Option Nat
  include_regex : Option (String → Bool)
  exclude_regex : Option (String → Bool)
  include_paths : List String
  exclude_paths : List String
  flags : FilterFlags

/-- Source `normalize_extensions`: trim, strip leading dots, lower-case,
drop empties.  (The source collects into a `HashSet`; we keep the list,
duplicates are harmless for membership.) -/
def normalize_extensions (values : List String) : List String :=
  values.foldr
    (fun value acc =>
      let cleaned := lower_string (trim_leading_dots (trim_string value))
      if cleaned.data.isEmpty then acc else cleaned :: acc)
    []

/-- Source `normalize_list`: trim, lower-case, drop empties. -/
def normalize_list (values : List String) : List String :=
  values.foldr
    (fun value acc =>
      let cleaned := lower_string (trim_string value)
      if cleaned.data.isEmpty then acc else cleaned :: acc)
    []

/-- Source `build_filter_config`. -/
def build_filter_config (filters : ScanFiltersL) : Except String FilterConfig :=
  match filters.min_size_bytes, filters.max_size_bytes with
  | some min, some max =>
    if min > max then .error "Min size cannot exceed max size"
    else .ok (build_filter_config_ok filters)
  | _, _ => .ok (build_filter_config_ok filters)
where
  /-- The non-error tail of `build_filter_config` (regexes are already
  compiled in the model, so only the size-range validation can fail). -/
  build_filter_config_ok (filters : ScanFiltersL) : FilterConfig :=
    let include_extensions := normalize_extensions filters.include_extensions
    let exclude_extensions := normalize_extensions filters.exclude_extensions
    let include_names := normalize_list filters.include_names
    let exclude_names := normalize_list filters.exclude_names
    let include_paths := normalize_list filters.include_paths
    let exclude_paths := normalize_list filters.exclude_paths
    let has_include_extensions := !include_extensions.isEmpty
    let has_exclude_extensions := !exclude_extensions.isEmpty
    let has_include_names := !include_names.isEmpty
    let has_exclude_names := !exclude_names.isEmpty
    let has_include_paths := !include_paths.isEmpty
    let has_exclude_paths := !exclude_paths.isEmpty
    let has_include_regex := filters.include_regex.isSome
    let has_exclude_regex := filters.exclude_regex.isSome
    let has_includes :=
      has_include_extensions || has_include_names || has_include_paths || has_include_regex
    let has_dir_excludes := has_exclude_paths || has_exclude_names || has_exclude_regex
    let has_file_excludes := has_dir_excludes || has_exclude_extensions
    let needs_path :=
      has_exclude_paths || has_include_paths || has_include_regex || has_exclude_regex
    let needs_name := has_exclude_names || has_include_names
    let needs_extension := has_include_extensions || has_exclude_extensions
    { include_extensions := include_extensions
      exclude_extensions := exclude_extensions
      include_names := include_names
      exclude_names := exclude_names
      min_size_bytes := filters.min_size_bytes
      max_size_bytes := filters.max_size_bytes
      include_regex := filters.include_regex
      exclude_regex := filters.exclude_regex
      include_paths := include_paths
      exclude_paths := exclude_paths
      flags :=
        { has_includes := has_includes
          has_file_excludes := has_file_excludes
          has_dir_excludes := has_dir_excludes
          needs_path := needs_path
          needs_name := needs_name
          needs_extension := needs_extension } }

/-- Source `matches_regex`. -/
def matches_regex (value : String) (regex : Option (String → Bool)) : Bool :=
  match regex with
  | some pattern => pattern value
  | none => false

/-- Source `path_contains_any`: any nonempty needle occurs in `path`. -/
def path_contains_any (path : String) (values : List String) : Bool :=
  values.any (fun value =>
    if value.data.isEmpty then false else str_contains path value)

/-- Source `should_skip_dir`. -/
def should_skip_dir (root : List String) (path : List String)
    (filters : FilterConfig) : Bool :=
  if path = root then false
  else if !filters.flags.has_dir_excludes then false
  else
    let path_str : Option String :=
      if filters.flags.needs_path then some (lower_string (get_path_string path)) else none
    let name_str : Option String :=
      if filters.flags.needs_name then some (get_entry_name_lower path) else none
    let path_hit :=
      match path_str with
      | some path_value =>
        matches_regex path_value filters.exclude_regex ||
          path_contains_any path_value filters.exclude_paths
      | none => false
    if path_hit then true
    else
      match name_str with
      | some name_value => path_contains_any name_value filters.exclude_names
      | none => false

/-- The `path.extension().and_then(to_str).map(to_lowercase)` computation of
`should_include_file`. -/
def file_ext (path : List String) : Option String :=
  (path.getLast?).bind (fun n => (rust_extension n).map lower_string)

/-- Source `should_include_file`. -/
def should_include_file (path : List String) (size_bytes : Nat)
    (filters : FilterConfig) : Bool :=
  if (match filters.min_size_bytes with
      | some min_size => decide (size_bytes < min_size)
      | none => false) then false
  else if (match filters.max_size_bytes with
      | some max_size => decide (size_bytes > max_size)
      | none => false) then false
  else
    let path_str : Option String :=
      if filters.flags.needs_path then some (lower_string (get_path_string path)) else none
    let name_str : Option String :=
      if filters.flags.needs_name then some (get_entry_name_lower path) else none
    let ext : Option String :=
      if filters.flags.needs_extension then file_ext path else none
    let excluded :=
      if filters.flags.has_file_excludes then
        (match path_str with
         | some path_value =>
           matches_regex path_value filters.exclude_regex ||
             path_contains_any path_value filters.exclude_paths
         | none => false) ||
        (match name_str with
         | some name_value => path_contains_any name_value filters.exclude_names
         | none => false) ||
        (match ext with
         | some ext_value => filters.exclude_extensions.contains ext_value
         | none => false)
      else false
    if excluded then false
    else if !filters.flags.has_includes then true
    else
      (match path_str with
       | some path_value =>
         matches_regex path_value filters.include_regex ||
           path_contains_any path_value filters.include_paths
       | none => false) ||
      (match name_str with
       | some name_value => path_contains_any name_value filters.include_names
       | none => false) ||
      (match ext with
       | some ext_value => filters.include_extensions.contains ext_value
       | none => false)

/-! ### Scan data model (`ScanFile`, `ScanNode`, `ScanSummary`, events) -/

/-- Source `ScanFile`. -/
structure ScanFileL where
  path : String
  name : String
  size_bytes : Nat
deriving DecidableEq

/-- Source `ScanNode` (recursive, so an inductive rather than a structure). -/
inductive ScanNodeL where
  | mk (path : String) (name : String) (size_bytes : Nat) (file_count : Nat)
      (dir_count : Nat) (files : List ScanFileL) (children : List ScanNodeL)

def ScanNodeL.path : ScanNodeL → String
  | .mk p _ _ _ _ _ _ => p

def ScanNodeL.name : ScanNodeL → String
  | .mk _ n _ _ _ _ _ => n

def ScanNodeL.size_bytes : ScanNodeL → Nat
  | .mk _ _ s _ _ _ _ => s

def ScanNodeL.file_count : ScanNodeL → Nat
  | .mk _ _ _ f _ _ _ => f

def ScanNodeL.dir_count : ScanNodeL → Nat
  | .mk _ _ _ _ d _ _ => d

def ScanNodeL.files : ScanNodeL → List ScanFileL
  | .mk _ _ _ _ _ fs _ => fs

def ScanNodeL.children : ScanNodeL → List ScanNodeL
  | .mk _ _ _ _ _ _ cs => cs

/-- Source `ScanSummary`.  `duration_ms` is wall-clock time, fixed to `0` in
the model. -/
structure ScanSummaryL where
  id : Option String
  root : ScanNodeL
  total_bytes : Nat
  file_count : Nat
  dir_count : Nat
  largest_files : List ScanFileL
  duration_ms : Nat

/-- Source `ScanEvent`. -/
inductive ScanEventL where
  | progress (summary : ScanSummaryL)
  | complete (summary : ScanSummaryL)
  | error (message : String)
  | cancelled (message : String)

/-- Source `NodeStats` (per-directory direct totals). -/
structure NodeStats where
  direct_bytes : Nat
  direct_files : Nat
  direct_dirs : Nat
deriving DecidableEq

/-- The `Default` instance the source derives for `NodeStats`. -/
def NodeStats.zero : NodeStats := ⟨0, 0, 0⟩

/-! ### SnapshotBuilder (`build_node`, `build_summary`) -/

/-- Stable insertion into a sorted list: the new element goes before the
first element `b` with `le a b`, hence before any equal elements already
present.  Used by `sort_by` below. -/
def insert_by {α : Type} (le : α → α → Bool) (a : α) : List α → List α
  | [] => [a]
  | b :: bs => if le a b then a :: b :: bs else b :: insert_by le a bs

/-- Stable sort by a boolean total preorder: the model of Rust's stable
`slice::sort_by`.  (Insertion from the right keeps equal elements in input
order, exactly as Rust's stable sort does; a structurally recursive sort is
used so that the model evaluates definitionally.) -/
def sort_by {α : Type} (le : α → α → Bool) : List α → List α
  | [] => []
  | x :: xs => insert_by le x (sort_by le xs)

/-- Rust `sort_by(|a, b| b.size_bytes.cmp(&a.size_bytes))`: stable sort,
descending by size. -/
def sort_files_desc (files : List ScanFileL) : List ScanFileL :=
  sort_by (fun a b => b.size_bytes ≤ a.size_bytes) files

/-- Comparator of `build_node`'s size-descending child sort
(`b.size.cmp(a.size).then_with(|| a.name.cmp(b.name))`). -/
def node_size_desc (a b : ScanNodeL) : Bool :=
  decide (b.size_bytes < a.size_bytes) ||
    (a.size_bytes == b.size_bytes && !decide (b.name < a.name))

/-- Comparator of `build_node`'s name-ascending child sort. -/
def node_name_asc (a b : ScanNodeL) : Bool :=
  !decide (b.name < a.name)

/-- The straight-line tail of `build_node` once the child nodes have been
built: accumulate the aggregates, apply the depth gate, sort, truncate.
The source interleaves the accumulation with the recursive calls inside one
loop; the result is the same because the aggregates are sums over all
children while `nodes` receives the children in list order. -/
def build_node_assemble (path : List String) (depth : Nat)
    (max_depth max_files : Option Nat) (sort_by_size : Bool)
    (max_children : Option Nat) (stats : NodeStats)
    (files0 : List ScanFileL) (child_nodes : List ScanNodeL) : ScanNodeL :=
  let size_bytes := stats.direct_bytes + (child_nodes.map ScanNodeL.size_bytes).sum
  let file_count := stats.direct_files + (child_nodes.map ScanNodeL.file_count).sum
  let dir_count := child_nodes.length + (child_nodes.map ScanNodeL.dir_count).sum
  let nodes :=
    if (match max_depth with
        | some max => decide (depth < max)
        | none => true) then child_nodes else []
  let nodes :=
    if sort_by_size then sort_by node_size_desc nodes
    else sort_by node_name_asc nodes
  let nodes :=
    match max_children with
    | some limit => if nodes.length > limit then nodes.take limit else nodes
    | none => nodes
  let files :=
    match max_files with
    | some limit =>
      if files0.length > limit then (sort_files_desc files0).take limit else files0
    | none => files0
  .mk (get_path_string path) (get_entry_name_string path)
    size_bytes file_count dir_count files nodes

/-- Source `build_node`.  The source recurses along the acyclic
parent→child adjacency; the model adds a `fuel` bound on the recursion
depth, and every use supplies fuel exceeding the adjacency's depth so the
cut-off branch is never taken. -/
def build_node (children_map : List String → List (List String))
    (files_map : List String → List ScanFileL)
    (stats_map : List String → NodeStats) :
    Nat → List String → Nat → Option Nat → Option Nat → Bool → Option Nat → ScanNodeL
  | 0, path, depth, md, mf, sbs, mc =>
    build_node_assemble path depth md mf sbs mc (stats_map path) (files_map path) []
  | fuel + 1, path, depth, md, mf, sbs, mc =>
    build_node_assemble path depth md mf sbs mc (stats_map path) (files_map path)
      ((children_map path).map
        (fun child => build_node children_map files_map stats_map fuel child (depth + 1) md mf sbs mc))

/-- Source `build_summary`. -/
def build_summary (children_map : List String → List (List String))
    (files_map : List String → List ScanFileL)
    (stats_map : List String → NodeStats) (root : List String)
    (largest_files : List ScanFileL) (scan_id : Option String)
    (compact : Bool) (sort_by_size : Bool) (max_children : Option Nat)
    (fuel : Nat) : ScanSummaryL :=
  let md_mf : Option Nat × Option Nat := if compact then (some 1, some 0) else (none, none)
  let root_node := build_node children_map files_map stats_map fuel root 0 md_mf.1 md_mf.2
    sort_by_size max_children
  { id := scan_id
    total_bytes := root_node.size_bytes
    file_count := root_node.file_count
    dir_count := root_node.dir_count
    root := root_node
    largest_files := largest_files
    duration_ms := 0 }

/-! ### TopFiles (`update_largest_files`) -/

/-- Source `update_largest_files`. -/
def update_largest_files (largest_files : List ScanFileL) (path : List String)
    (size_bytes : Nat) (limit : Nat) : List ScanFileL :=
  if size_bytes = 0 then largest_files
  else
    let name := get_entry_name_string path
    let entry : ScanFileL := ⟨get_path_string path, name, size_bytes⟩
    if largest_files.length < limit then
      sort_files_desc (largest_files ++ [entry])
    else
      let smallest := ((largest_files.getLast?).map ScanFileL.size_bytes).getD 0
      if size_bytes ≤ smallest then largest_files
      else (sort_files_desc (largest_files ++ [entry])).take limit

/-! ### WalkEngine (`run_scan`) -/

/-- One `Ok` item yielded by the `jwalk` iterator.  `Err` items (vanished or
unreadable entries) are skipped by the source before any state changes and
are not modelled; entries that are neither files nor directories (symlinks)
change no state either. -/
inductive WalkEntry where
  | dirE (path : List String)
  | fileE (path : List String) (size : Nat)
deriving DecidableEq

def WalkEntry.entry_path : WalkEntry → List String
  | .dirE p => p
  | .fileE p _ => p

/-- The scan's per-traversal mutable aggregation state: the three
`HashMap<PathBuf, _>`s of `run_scan` as total maps (see header) plus the
TopFiles list. -/
structure ScanState where
  stats : List String → NodeStats
  children : List String → List (List String)
  files_by_parent : List String → List ScanFileL
  largest_files : List ScanFileL

def ScanState.init : ScanState :=
  ⟨fun _ => NodeStats.zero, fun _ => [], fun _ => [], []⟩

/-- Pointwise update of a total map (models one `HashMap` write). -/
def map_update {V : Type} (m : List String → V) (k : List String) (v : V) :
    List String → V :=
  fun q => if q = k then v else m q

/-- The body of `run_scan`'s loop for one `Ok` entry, between the
cancellation check and the throttle/emission tail.  The returned `Bool` is
true when the source executed `continue` (skipped directory or filtered
file), which skips the throttle and emission steps for that entry. -/
def scan_step (root : List String) (filters : FilterConfig) (st : ScanState) :
    WalkEntry → ScanState × Bool
  | .dirE p =>
    if should_skip_dir root p filters then (st, true)
    else
      -- stats.entry(path).or_default() is the identity on a total map
      match path_parent p with
      | some parent =>
        ({ st with
            children := map_update st.children parent (st.children parent ++ [p])
            stats := map_update st.stats parent
              (let s := st.stats parent
               { s with direct_dirs := s.direct_dirs + 1 }) }, false)
      | none => (st, false)
  | .fileE p size =>
    if !should_include_file p size filters then (st, true)
    else
      let st1 :=
        match path_parent p with
        | some parent =>
          { st with files_by_parent := (map_update st.files_by_parent parent
              (st.files_by_parent parent ++
                [(⟨get_path_string p, get_entry_name_string p, size⟩ : ScanFileL)])) }
        | none => st
      let st2 := { st1 with largest_files := update_largest_files st1.largest_files p size 10 }
      let st3 :=
        match path_parent p with
        | some parent =>
          { st2 with stats := (map_update st2.stats parent
              (let s := st2.stats parent
               { s with direct_bytes := s.direct_bytes + size
                        direct_files := s.direct_files + 1 })) }
        | none => st2
      (st3, false)

/-- The scan configuration relevant to the model: the compiled filter and
the entry-count emission cadence.  `emit_interval` (wall clock) is the
`interval_elapsed` oracle threaded into the loop, `throttle` only sleeps,
and `parallelism` only sizes the worker pool. -/
structure ScanConfigL where
  filters : FilterConfig
  emit_every : Nat

/-- Source `should_emit_progress`, with the `last_emit.elapsed() ≥
emit_interval` test abstracted into the boolean `interval_elapsed`. -/
def should_emit_progress (processed : Nat) (interval_elapsed : Bool)
    (config : ScanConfigL) : Bool :=
  processed % config.emit_every == 0 || interval_elapsed

/-- The loop-carried state of `run_scan` around the aggregation maps. -/
structure LoopState where
  scan : ScanState
  processed : Nat
  last_emitted_bytes : Nat
  events : List ScanEventL

/-- The `for entry in walk` loop of `run_scan`.  `cancel k` is what the
relaxed load of the cancellation flag observes at the `k`-th iteration;
`timer k` is whether `last_emit.elapsed() ≥ emit_interval` there.  Returns
the final state and whether the loop returned early through cancellation. -/
def run_scan_loop (config : ScanConfigL) (root : List String)
    (scan_id : Option String) (fuel : Nat) (cancel timer : Nat → Bool) :
    List WalkEntry → Nat → LoopState → LoopState × Bool
  | [], _, st => (st, false)
  | e :: rest, k, st =>
    if cancel k then
      ({ st with events := st.events ++ [.cancelled "Scan cancelled"] }, true)
    else
      let step := scan_step root config.filters st.scan e
      let st1 : LoopState := { st with scan := step.1, processed := st.processed + 1 }
      -- the throttle branch only sleeps; no observable state
      let st2 : LoopState :=
        if step.2 then st1
        else if should_emit_progress st1.processed (timer k) config then
          let summary := build_summary step.1.children step.1.files_by_parent step.1.stats
            root step.1.largest_files scan_id true false (some 400) fuel
          if summary.total_bytes ≥ st1.last_emitted_bytes then
            { st1 with
                last_emitted_bytes := summary.total_bytes
                events := st1.events ++ [.progress summary] }
          else st1
        else st1
      run_scan_loop config root scan_id fuel cancel timer rest (k + 1) st2

/-- Source `run_scan`: run the loop over the walk's entries, then (unless
cancelled) build and emit the full final summary.  The source returns
`Ok(())` on both exits, which the `Except` component records. -/
def run_scan (config : ScanConfigL) (root : List String) (scan_id : Option String)
    (fuel : Nat) (cancel timer : Nat → Bool) (entries : List WalkEntry) :
    LoopState × Except String Unit :=
  let start : LoopState := ⟨ScanState.init, 0, 0, []⟩
  let res := run_scan_loop config root scan_id fuel cancel timer entries 0 start
  if res.2 then (res.1, .ok ())
  else
    let summary := build_summary res.1.scan.children res.1.scan.files_by_parent
      res.1.scan.stats root res.1.scan.largest_files scan_id false true none fuel
    ({ res.1 with events := res.1.events ++ [.complete summary] }, .ok ())

/-! ### Directory trees and their walks -/

/-- A synthetic directory tree (names are single path components). -/
inductive FsTree where
  | file (name : String) (size : Nat)
  | dir (name : String) (entries : List FsTree)

def FsTree.name : FsTree → String
  | .file n _ => n
  | .dir n _ => n

mutual

/-- The `jwalk` entry sequence for the subtree `t` placed under directory
`base`: depth-first, each directory yielded before its contents (the order
`jwalk` delivers in serial mode). -/
def walkTree : FsTree → List String → List WalkEntry
  | .file n s, base => [.fileE (base ++ [n]) s]
  | .dir n cs, base => .dirE (base ++ [n]) :: walkForest cs (base ++ [n])

/-- Walk of a list of sibling subtrees, all under `base`. -/
def walkForest : List FsTree → List String → List WalkEntry
  | [], _ => []
  | t :: ts, base => walkTree t base ++ walkForest ts base

end

mutual

/-- Height of a tree (directory nesting depth). -/
def treeHeight : FsTree → Nat
  | .file _ _ => 0
  | .dir _ cs => forestHeight cs + 1

def forestHeight : List FsTree → Nat
  | [] => 0
  | t :: ts => max (treeHeight t) (forestHeight ts)

end

/-- No duplicates, as a boolean. -/
def nodupNames : List String → Bool
  | [] => true
  | x :: xs => !(xs.contains x) && nodupNames xs

mutual

/-- Well-formedness of a synthetic tree: sibling names are distinct at every
level, as on a real filesystem (two siblings cannot share a name), so node
paths are globally distinct. -/
def wfTree : FsTree → Bool
  | .file _ _ => true
  | .dir _ cs => nodupNames (cs.map FsTree.name) && wfForest cs

def wfForest : List FsTree → Bool
  | [] => true
  | t :: ts => wfTree t && wfForest ts

end

mutual

/-- The sum of sizes of files that pass `should_include_file` and all of
whose ancestor directories below the traversal root are unskipped: what the
final summary actually totals (subtrees of skipped directories are
disconnected from the result tree). -/
def keptSum (root : List String) (filters : FilterConfig) :
    List String → FsTree → Nat
  | base, .file n s => if should_include_file (base ++ [n]) s filters then s else 0
  | base, .dir n cs =>
    if should_skip_dir root (base ++ [n]) filters then 0
    else keptSumF root filters (base ++ [n]) cs

def keptSumF (root : List String) (filters : FilterConfig) :
    List String → List FsTree → Nat
  | _, [] => 0
  | base, t :: ts => keptSum root filters base t + keptSumF root filters base ts

end

mutual

/-- The spec's words for C1: the sum of sizes of all files in the tree that
pass `includeFile`, with no regard to directory skipping. -/
def includeSum (filters : FilterConfig) : List String → FsTree → Nat
  | base, .file n s => if should_include_file (base ++ [n]) s filters then s else 0
  | base, .dir n cs => includeSumF filters (base ++ [n]) cs

def includeSumF (filters : FilterConfig) : List String → List FsTree → Nat
  | _, [] => 0
  | base, t :: ts => includeSum filters base t + includeSumF filters base ts

end

/-! ### Entry-list characterizations of the aggregation maps -/

/-- The direct bytes the loop adds under key `q`: sizes of included files
whose parent is `q`. -/
def dir_bytes_in (filters : FilterConfig) (q : List String) :
    List WalkEntry → Nat
  | [] => 0
  | .dirE _ :: rest => dir_bytes_in filters q rest
  | .fileE p s :: rest =>
    (if path_parent p = some q ∧ should_include_file p s filters then s else 0) +
      dir_bytes_in filters q rest

/-- The child paths the loop appends under key `q`: unskipped directories
whose parent is `q`, in walk order. -/
def children_in (root : List String) (filters : FilterConfig) (q : List String) :
    List WalkEntry → List (List String)
  | [] => []
  | .dirE p :: rest =>
    (if ¬ should_skip_dir root p filters ∧ path_parent p = some q then [p] else []) ++
      children_in root filters q rest
  | .fileE _ _ :: rest => children_in root filters q rest

/-- The included files of an entry list, in walk order (these are exactly
the `update_largest_files` calls the loop makes). -/
def included_files (filters : FilterConfig) : List WalkEntry → List (List String × Nat)
  | [] => []
  | .dirE _ :: rest => included_files filters rest
  | .fileE p s :: rest =>
    (if should_include_file p s filters then [(p, s)] else []) ++
      included_files filters rest

/-! ### ControlHub (`RemoteHub`) -/

/-- Source `RemoteHub` state.  `scan_cancel` holds the current value of the
shared cancellation flag when a scan is registered; `token` is the
configured shared secret.  The client registry and shutdown channel are
delivery plumbing and carry no decision logic used by the claims. -/
structure RemoteHubL where
  scan_active : Bool
  scan_cancel : Option Bool
  token : Option String
deriving DecidableEq

/-- Source `RemoteHub::new`. -/
def RemoteHubL.new (token : Option String) : RemoteHubL :=
  ⟨false, none, token⟩

/-- Source `RemoteHub::start_scan`: atomically swap the exclusivity flag to
true; if it was already set, fail without touching anything; otherwise
register the fresh (unset) cancellation flag. -/
def RemoteHubL.start_scan (h : RemoteHubL) (cancel_flag : Bool) : Bool × RemoteHubL :=
  if h.scan_active then (false, h)
  else (true, { h with scan_active := true, scan_cancel := some cancel_flag })

/-- Source `RemoteHub::cancel_scan`. -/
def RemoteHubL.cancel_scan (h : RemoteHubL) : Bool × RemoteHubL :=
  match h.scan_cancel with
  | some _ => (true, { h with scan_cancel := some true })
  | none => (false, h)

/-- Source `RemoteHub::finish_scan`. -/
def RemoteHubL.finish_scan (h : RemoteHubL) : RemoteHubL :=
  { h with scan_active := false, scan_cancel := none }

/-- Source `RemoteHub::validate_token`. -/
def RemoteHubL.validate_token (h : RemoteHubL) (token : Option String) : Bool :=
  match h.token with
  | none => true
  | some expected => token == some expected

/-- A reply queued to the requesting client (`send_remote_error` or
`send_remote_event`); the echoed request id is immaterial to the claims. -/
inductive RemoteReply where
  | errorR (message : String)
  | eventR (event : String)
deriving DecidableEq

/-- Outcome of `handle_remote_scan`: the replies sent to the requester, the
hub state afterwards, and whether a traversal thread was spawned. -/
structure RemoteScanOutcome where
  replies : List RemoteReply
  hub : RemoteHubL
  traversal_started : Bool
deriving DecidableEq

/-- Source `handle_remote_scan` up to spawning the scan thread.  The
filesystem existence probe and `build_scan_config` are abstracted to their
outcomes (`path_exists`, `config`). -/
def handle_remote_scan (h : RemoteHubL) (path_exists : Bool)
    (config : Except String ScanConfigL) : RemoteScanOutcome :=
  if !path_exists then ⟨[.errorR "path-not-found"], h, false⟩
  else
    match config with
    | .error e => ⟨[.errorR e], h, false⟩
    | .ok _ =>
      let res := h.start_scan false
      if !res.1 then ⟨[.errorR "scan-in-progress"], res.2, false⟩
      else ⟨[.eventR "scan-started"], res.2, true⟩

/-- The scan thread spawned by `handle_remote_scan`: run the scan (its
events are broadcast), emit a `scan-error` event if it returned `Err`, and
call `finish_scan` unconditionally afterwards. -/
def remote_scan_thread (h : RemoteHubL) (scan_result : Except String Unit) : RemoteHubL :=
  match scan_result with
  | .ok _ => h.finish_scan
  | .error _ => h.finish_scan

/-- An observable step the connection handler performs. -/
inductive RemoteAction where
  | sleep_ms (ms : Nat)
  | send_error (message : String)
  | dispatch
deriving DecidableEq

/-- The parse/auth gate of `handle_remote_line`.  `parsed` is the outcome
of `serde_json::from_str` on the line, abstracted to the envelope's `token`
field when parsing succeeds.  On auth failure the handler sleeps two
seconds and replies `unauthorized`; otherwise it dispatches the request.
In every case the function returns to the reader loop, which keeps the
connection open (only read errors close it). -/
def handle_remote_line_auth (h : RemoteHubL) (parsed : Option (Option String)) :
    List RemoteAction :=
  match parsed with
  | none => [.send_error "invalid_json"]
  | some token =>
    if !h.validate_token token then
      [.sleep_ms 2000, .send_error "unauthorized"]
    else
      [.dispatch]

/-! ### `handle_remote_read` and base64 -/

/-- The characters of the standard base64 alphabet. -/
def b64_alphabet : List Char :=
  "ABCDEFGHIJKLMNOPQRSTUVWXYZabcdefghijklmnopqrstuvwxyz0123456789+/".data

/-- Character for a 6-bit group. -/
def b64_char (n : Nat) : Char := b64_alphabet.getD n 'A'

/-- Index of a base64 character, none for non-alphabet characters. -/
def b64_index (c : Char) : Option Nat :=
  go b64_alphabet 0
where
  go : List Char → Nat → Option Nat
    | [], _ => none
    | a :: as, i => if a == c then some i else go as (i + 1)

/-- Standard base64 encoding of a byte list (model of
`BASE64_STANDARD.encode`); bytes are `Nat`s below 256. -/
def b64_encode : List Nat → List Char
  | [] => []
  | [a] => [b64_char (a / 4), b64_char (a % 4 * 16), '=', '=']
  | [a, b] => [b64_char (a / 4), b64_char (a % 4 * 16 + b / 16), b64_char (b % 16 * 4), '=']
  | a :: b :: c :: rest =>
    b64_char (a / 4) :: b64_char (a % 4 * 16 + b / 16) ::
      b64_char (b % 16 * 4 + c / 64) :: b64_char (c % 64) :: b64_encode rest

/-- Standard base64 decoding (the receiving side of the protocol). -/
def b64_decode : List Char → Option (List Nat)
  | [] => some []
  | c1 :: c2 :: c3 :: c4 :: rest =>
    if c3 = '=' ∧ c4 = '=' ∧ rest = [] then do
      let i1 ← b64_index c1
      let i2 ← b64_index c2
      pure [i1 * 4 + i2 / 16]
    else if c4 = '=' ∧ rest = [] then do
      let i1 ← b64_index c1
      let i2 ← b64_index c2
      let i3 ← b64_index c3
      pure [i1 * 4 + i2 / 16, i2 % 16 * 16 + i3 / 4]
    else do
      let i1 ← b64_index c1
      let i2 ← b64_index c2
      let i3 ← b64_index c3
      let i4 ← b64_index c4
      let ds ← b64_decode rest
      pure ((i1 * 4 + i2 / 16) :: (i2 % 16 * 16 + i3 / 4) :: (i3 % 4 * 64 + i4) :: ds)
  | _ => none

/-- What the filesystem shows at the target of a `read` request. -/
inductive RFsNode where
  | fileN (content : List Nat)
  | dirN
deriving DecidableEq

/-- Reply of `handle_remote_read`: an error event, or `read-complete`
carrying the base64 text. -/
inductive ReadReply where
  | errorR (message : String)
  | completeR (content : List Char)
deriving DecidableEq

/-- Source `handle_remote_read`.  The probes (`exists`, `is_file`,
`metadata.len`, `fs::read`) are abstracted to one lookup outcome: absent,
an existing non-file, or a file with its bytes (`metadata.len()` is the
byte count).  The I/O-error replies for a file that vanishes between the
probes are outside the model. -/
def handle_remote_read (target : Option RFsNode) : ReadReply :=
  match target with
  | none => .errorR "path-not-found"
  | some .dirN => .errorR "not-a-file"
  | some (.fileN bytes) =>
    if bytes.length > 5 * 1024 * 1024 then .errorR "file-too-large"
    else .completeR (b64_encode bytes)

/-! ### OutboundClient (`remote_send`, `build_remote_payload`) -/

/-- A `serde_json::Value`. -/
inductive JVal where
  | nullJ
  | boolJ (b : Bool)
  | numJ (n : Int)
  | strJ (s : String)
  | arrJ (elems : List JVal)
  | objJ (fields : List (String × JVal))

/-- Model of `serde_json::Map::entry(key).or_insert(v)`: keep an existing
binding, otherwise add one.  (The source's map is ordered by key; binding
position does not matter to any claim.) -/
def obj_entry_or_insert (fields : List (String × JVal)) (key : String) (v : JVal) :
    List (String × JVal) :=
  if (fields.lookup key).isSome then fields else fields ++ [(key, v)]

/-- Source `build_remote_payload`.  The source serializes the resulting
value and appends a newline; serialization being injective formatting, the
model returns the value that gets serialized. -/
def build_remote_payload (payload : JVal) (token : Option String) :
    Except String JVal :=
  match token with
  | none => .ok payload
  | some secret =>
    match payload with
    | .objJ fields => .ok (.objJ (obj_entry_or_insert fields "token" (.strJ secret)))
    | _ => .error "Payload must be an object"

/-- Source `remote_send`: fails when no outbound connection is live;
otherwise replaces a non-object payload with the empty JSON object, runs
`build_remote_payload` with the connection's stored token, and queues the
result on the writer channel.  `connection` is the live connection's stored
token, when connected. -/
def remote_send (connection : Option (Option String)) (payload : JVal) :
    Except String JVal :=
  match connection with
  | none => .error "Remote is not connected"
  | some token =>
    let safe_payload :=
      match payload with
      | .objJ _ => payload
      | _ => .objJ []
    build_remote_payload safe_payload token

/-! ### Shared concrete objects for witnesses and counterexamples -/

/-- A compiled filter with no criteria (what `build_filter_config` yields on
an all-empty `ScanFilters`). -/
def trivial_filter : FilterConfig :=
  { include_extensions := []
    exclude_extensions := []
    include_names := []
    exclude_names := []
    min_size_bytes := none
    max_size_bytes := none
    include_regex := none
    exclude_regex := none
    include_paths := []
    exclude_paths := []
    flags :=
      { has_includes := false
        has_file_excludes := false
        has_dir_excludes := false
        needs_path := false
        needs_name := false
        needs_extension := false } }

/-- A scan configuration with the trivial filter and the Balanced cadence. -/
def trivial_config : ScanConfigL := ⟨trivial_filter, 10000⟩

/-- Is a JSON value an object? -/
def JVal.isObj : JVal → Bool
  | .objJ _ => true
  | _ => false

/-! ### C4 — token validation and the unauthorized path -/

/-- C4: for every incoming request, a hub with no configured token
authorizes it regardless of its token field; with a configured token the
request is authorized iff its token field equals it exactly, and on
mismatch `handle_remote_line` sleeps 2000 ms (≥ 2 s) and then replies
`unauthorized`, returning to the reader loop so the connection stays
open. -/
theorem C4_auth (h : RemoteHubL) (req : Option String) :
    (h.token = none → h.validate_token req = true) ∧
    (∀ s, h.token = some s → (h.validate_token req = true ↔ req = some s)) ∧
    (h.validate_token req = false →
      handle_remote_line_auth h (some req) =
        [.sleep_ms 2000, .send_error "unauthorized"] ∧ 2 * 1000 ≤ 2000) := by
  refine ⟨?_, ?_, ?_⟩
  · intro ht
    simp [RemoteHubL.validate_token, ht]
  · intro s ht
    simp [RemoteHubL.validate_token, ht]
  · intro hv
    refine ⟨?_, le_refl _⟩
    simp [handle_remote_line_auth, hv]

/-- C4 witness: a hub configured with token `secret` rejects token `wrong`
with the delayed unauthorized reply. -/
theorem C4_auth_witness :
    handle_remote_line_auth ⟨false, none, some "secret"⟩ (some (some "wrong")) =
      [.sleep_ms 2000, .send_error "unauthorized"] ∧ 2 * 1000 ≤ 2000 :=
  (C4_auth ⟨false, none, some "secret"⟩ (some "wrong")).2.2 (by decide)

/-! ### C3 — scan exclusivity on the hub -/

/-- C3 (amended): for a `scan` request that passes path and options
validation, a busy hub replies `scan-in-progress`, changes no state and
starts no traversal; a free hub claims the slot (installing a fresh unset
cancellation flag) and replies `scan-started`; and the scan thread releases
the slot unconditionally whatever `run_scan` returned.  (Requests that fail
validation are answered by the corresponding error reply before the slot is
consulted — see the counterexample.) -/
theorem C3_exclusivity (h : RemoteHubL) (cfg : ScanConfigL) (r : Except String Unit) :
    (h.scan_active = true →
      handle_remote_scan h true (.ok cfg) = ⟨[.errorR "scan-in-progress"], h, false⟩) ∧
    (h.scan_active = false →
      handle_remote_scan h true (.ok cfg) =
        ⟨[.eventR "scan-started"],
          { h with scan_active := true, scan_cancel := some false }, true⟩) ∧
    ((remote_scan_thread h r).scan_active = false ∧
      (remote_scan_thread h r).scan_cancel = none) := by
  refine ⟨?_, ?_, ?_⟩
  · intro ha
    simp [handle_remote_scan, RemoteHubL.start_scan, ha]
  · intro ha
    simp [handle_remote_scan, RemoteHubL.start_scan, ha]
  · cases r <;> simp [remote_scan_thread, RemoteHubL.finish_scan]

/-- C3 witness: a busy hub turns a valid scan request away with
`scan-in-progress` and no traversal; a free hub starts one; the thread
epilogue frees the slot. -/
theorem C3_exclusivity_witness :
    (handle_remote_scan ⟨true, some false, none⟩ true (.ok trivial_config) =
      ⟨[.errorR "scan-in-progress"], ⟨true, some false, none⟩, false⟩) ∧
    (handle_remote_scan ⟨false, none, none⟩ true (.ok trivial_config) =
      ⟨[.eventR "scan-started"], ⟨true, some false, none⟩, true⟩) :=
  ⟨(C3_exclusivity ⟨true, some false, none⟩ trivial_config (.ok ())).1 rfl,
    (C3_exclusivity ⟨false, none, none⟩ trivial_config (.ok ())).2.1 rfl⟩

/-- C3 counterexample: the claim says a request arriving while a scan is
active receives `scan-in-progress`, but the handler validates the path
first, so a busy hub answers a request naming a nonexistent path with
`path-not-found` instead. -/
theorem C3_counterexample :
    (RemoteHubL.mk true (some false) none).scan_active = true ∧
    handle_remote_scan ⟨true, some false, none⟩ false (.ok trivial_config) =
      ⟨[.errorR "path-not-found"], ⟨true, some false, none⟩, false⟩ ∧
    RemoteReply.errorR "path-not-found" ≠ RemoteReply.errorR "scan-in-progress" := by
  refine ⟨rfl, rfl, by decide⟩

/-! ### C10 — outbound payload sanitizing and token injection -/

/-- C10 counterexample: the claim says non-object payloads are rejected and
never sent, but `remote_send` replaces a non-object payload with the empty
JSON object and sends that (here with the stored token injected): the call
succeeds and a line is queued. -/
theorem C10_counterexample :
    remote_send (some (some "t")) (.strJ "hi") =
      .ok (.objJ [("token", .strJ "t")]) := rfl

/-- C10 (amended): when an outbound connection is live, `remote_send` never
rejects a payload: a non-object payload is replaced by the empty JSON
object before sending, and for object payloads the stored token (when one
exists) is injected under the key `token` unless the object already has
one; with no stored token the object is sent unchanged. -/
theorem C10_token_injection (tok : Option String) (payload : JVal) :
    (∃ v, remote_send (some tok) payload = .ok v) ∧
    (∀ fs, payload = .objJ fs →
      remote_send (some tok) payload =
        .ok (.objJ (match tok with
          | some s => obj_entry_or_insert fs "token" (.strJ s)
          | none => fs))) ∧
    (payload.isObj = false →
      remote_send (some tok) payload =
        .ok (.objJ (match tok with
          | some s => [("token", .strJ s)]
          | none => []))) := by
  refine ⟨?_, ?_, ?_⟩
  · cases payload <;> cases tok <;>
      simp [remote_send, build_remote_payload, obj_entry_or_insert]
  · intro fs hp
    subst hp
    cases tok <;> simp [remote_send, build_remote_payload]
  · intro hobj
    cases payload <;> simp [JVal.isObj] at hobj <;>
      cases tok <;> simp [remote_send, build_remote_payload, obj_entry_or_insert]

/-- C10 witness: an object without a `token` key gets the stored token
appended; a number payload is replaced by the empty object and sent with
just the token. -/
theorem C10_token_injection_witness :
    (remote_send (some (some "t")) (.objJ [("a", .nullJ)]) =
      .ok (.objJ (obj_entry_or_insert [("a", .nullJ)] "token" (.strJ "t")))) ∧
    (remote_send (some (some "t")) (.numJ 1) =
      .ok (.objJ [("token", .strJ "t")])) :=
  ⟨(C10_token_injection (some "t") (.objJ [("a", .nullJ)])).2.1 [("a", .nullJ)] rfl,
    (C10_token_injection (some "t") (.numJ 1)).2.2 rfl⟩

/-! ### C6 — the TopFiles tracker -/

/-- A sequence of accepted-file updates applied to the (initially empty)
TopFiles list, exactly as `run_scan` performs them (capacity 10). -/
def fold_largest (updates : List (List String × Nat)) : List ScanFileL :=
  updates.foldl (fun l u => update_largest_files l u.1 u.2 10) []

theorem length_insert_by {α : Type} (le : α → α → Bool) (a : α) (l : List α) :
    (insert_by le a l).length = l.length + 1 := by
  induction l with
  | nil => rfl
  | cons b bs ih =>
    simp only [insert_by]
    split <;> simp [ih]

theorem mem_insert_by {α : Type} (le : α → α → Bool) (a b : α) (l : List α) :
    b ∈ insert_by le a l ↔ b = a ∨ b ∈ l := by
  induction l with
  | nil => simp [insert_by]
  | cons c cs ih =>
    simp only [insert_by]
    split
    · simp [List.mem_cons]
    · simp only [List.mem_cons, ih]
      tauto

theorem length_sort_by {α : Type} (le : α → α → Bool) (l : List α) :
    (sort_by le l).length = l.length := by
  induction l with
  | nil => rfl
  | cons x xs ih => simp [sort_by, length_insert_by, ih]

theorem mem_sort_by {α : Type} (le : α → α → Bool) (a : α) (l : List α) :
    a ∈ sort_by le l ↔ a ∈ l := by
  induction l with
  | nil => simp [sort_by]
  | cons x xs ih => simp [sort_by, mem_insert_by, ih]

theorem pairwise_insert_by {α : Type} {le : α → α → Bool}
    (htotal : ∀ x y, le x y = true ∨ le y x = true)
    (htrans : ∀ x y z, le x y = true → le y z = true → le x z = true)
    (a : α) (l : List α) (hl : l.Pairwise (fun x y => le x y = true)) :
    (insert_by le a l).Pairwise (fun x y => le x y = true) := by
  induction l with
  | nil => simp [insert_by]
  | cons b bs ih =>
    rw [List.pairwise_cons] at hl
    obtain ⟨hb, hbs⟩ := hl
    simp only [insert_by]
    split
    · rename_i hab
      refine List.Pairwise.cons ?_ (List.Pairwise.cons hb hbs)
      intro y hy
      rcases List.mem_cons.mp hy with rfl | hy
      · exact hab
      · exact htrans a b y hab (hb y hy)
    · rename_i hab
      refine List.Pairwise.cons ?_ (ih hbs)
      intro y hy
      rcases (mem_insert_by le a y bs).mp hy with heq | hy
      · rw [heq]
        rcases htotal a b with h | h
        · exact absurd h hab
        · exact h
      · exact hb y hy

theorem pairwise_sort_by {α : Type} {le : α → α → Bool}
    (htotal : ∀ x y, le x y = true ∨ le y x = true)
    (htrans : ∀ x y z, le x y = true → le y z = true → le x z = true)
    (l : List α) :
    (sort_by le l).Pairwise (fun x y => le x y = true) := by
  induction l with
  | nil => simp [sort_by]
  | cons x xs ih => exact pairwise_insert_by htotal htrans x _ ih

theorem sort_files_desc_sorted (l : List ScanFileL) :
    (sort_files_desc l).Pairwise (fun a b => b.size_bytes ≤ a.size_bytes) := by
  unfold sort_files_desc
  refine (pairwise_sort_by ?_ ?_ l).imp ?_
  · intro x y
    simp only [decide_eq_true_eq]
    omega
  · intro x y z h1 h2
    simp only [decide_eq_true_eq] at *
    omega
  · intro a b h
    simpa using h

theorem sort_files_desc_mem {f : ScanFileL} {l : List ScanFileL} :
    f ∈ sort_files_desc l ↔ f ∈ l := by
  simp [sort_files_desc, mem_sort_by]

theorem sort_files_desc_length (l : List ScanFileL) :
    (sort_files_desc l).length = l.length := by
  simp [sort_files_desc, length_sort_by]

/-- One `update_largest_files` call preserves the TopFiles invariant:
`n` counts the positive-size accepted files seen so far. -/
theorem update_largest_inv (l : List ScanFileL) (p : List String) (s : Nat) (n : Nat)
    (hlen : l.length = min 10 n)
    (hpos : ∀ f ∈ l, 0 < f.size_bytes)
    (hsort : l.Pairwise (fun a b => b.size_bytes ≤ a.size_bytes)) :
    (update_largest_files l p s 10).length = min 10 (n + if 0 < s then 1 else 0) ∧
    (∀ f ∈ update_largest_files l p s 10, 0 < f.size_bytes) ∧
    (update_largest_files l p s 10).Pairwise (fun a b => b.size_bytes ≤ a.size_bytes) := by
  unfold update_largest_files
  by_cases hz : s = 0
  · subst hz
    simp only [if_pos rfl]
    simpa using ⟨hlen, hpos, hsort⟩
  · have hs : 0 < s := Nat.pos_of_ne_zero hz
    rw [if_neg hz, if_pos hs]
    by_cases hsmall : l.length < 10
    · rw [if_pos hsmall]
      refine ⟨?_, ?_, sort_files_desc_sorted _⟩
      · rw [sort_files_desc_length, List.length_append]
        simp only [List.length_cons, List.length_nil]
        omega
      · intro f hf
        rw [sort_files_desc_mem, List.mem_append] at hf
        rcases hf with hf | hf
        · exact hpos f hf
        · simp only [List.mem_singleton] at hf
          subst hf
          exact hs
    · rw [if_neg hsmall]
      have hten : l.length = 10 := by omega
      have hn : 10 ≤ n := by omega
      by_cases hsm : s ≤ ((l.getLast?).map ScanFileL.size_bytes).getD 0
      · rw [if_pos hsm]
        exact ⟨by omega, hpos, hsort⟩
      · rw [if_neg hsm]
        refine ⟨?_, ?_, ?_⟩
        · rw [List.length_take, sort_files_desc_length, List.length_append]
          simp only [List.length_cons, List.length_nil]
          omega
        · intro f hf
          have hf' := (List.take_sublist _ _).subset hf
          rw [sort_files_desc_mem, List.mem_append] at hf'
          rcases hf' with hf' | hf'
          · exact hpos f hf'
          · simp only [List.mem_singleton] at hf'
            subst hf'
            exact hs
        · exact (sort_files_desc_sorted _).sublist (List.take_sublist _ _)

theorem fold_largest_aux (updates : List (List String × Nat))
    (l : List ScanFileL) (n : Nat)
    (hlen : l.length = min 10 n)
    (hpos : ∀ f ∈ l, 0 < f.size_bytes)
    (hsort : l.Pairwise (fun a b => b.size_bytes ≤ a.size_bytes)) :
    (updates.foldl (fun l u => update_largest_files l u.1 u.2 10) l).length =
        min 10 (n + (updates.filter (fun u => 0 < u.2)).length) ∧
    (∀ f ∈ updates.foldl (fun l u => update_largest_files l u.1 u.2 10) l,
        0 < f.size_bytes) ∧
    (updates.foldl (fun l u => update_largest_files l u.1 u.2 10) l).Pairwise
        (fun a b => b.size_bytes ≤ a.size_bytes) := by
  induction updates generalizing l n with
  | nil => simpa using ⟨hlen, hpos, hsort⟩
  | cons u rest ih =>
    obtain ⟨h1, h2, h3⟩ := update_largest_inv l u.1 u.2 n hlen hpos hsort
    have := ih (update_largest_files l u.1 u.2 10) (n + if 0 < u.2 then 1 else 0) h1 h2 h3
    simp only [List.foldl_cons, List.filter_cons] at *
    by_cases hu : 0 < u.2
    · simpa [hu, Nat.add_comm, Nat.add_assoc, Nat.add_left_comm] using this
    · simpa [hu] using this

/-- C6 counterexample: the claim says the TopFiles list is strictly
descending by size, but two accepted files of equal positive size both stay
in the list, so the order is not strict. -/
theorem C6_counterexample :
    (fold_largest [(["a"], 5), (["b"], 5)]).map ScanFileL.size_bytes = [5, 5] ∧
    ¬ List.Pairwise (fun a b : Nat => b < a) [5, 5] := by
  refine ⟨by decide, ?_⟩
  intro h
  have := List.rel_of_pairwise_cons h (show (5 : Nat) ∈ [5] by simp)
  omega

/-- C6 (amended): after any sequence of accepted-file updates, the TopFiles
list has length `min 10 (number of accepted files with positive size)`,
contains no zero-size file, and is descending by size with ties allowed
(non-increasing; strictness fails on equal sizes, see the
counterexample). -/
theorem C6_topfiles (updates : List (List String × Nat)) :
    (fold_largest updates).length =
        min 10 (updates.filter (fun u => 0 < u.2)).length ∧
    (∀ f ∈ fold_largest updates, 0 < f.size_bytes) ∧
    (fold_largest updates).Pairwise (fun a b => b.size_bytes ≤ a.size_bytes) := by
  have := fold_largest_aux updates [] 0 (by simp) (by simp) (by simp)
  simpa [fold_largest] using this

/-! ### C8 — exclude criteria take precedence over include criteria -/

/-- One of the four exclude criteria of `should_include_file` matches the
file: exclude regex on the full lowercase path, exclude path-substring,
exclude name-substring, or exclude extension. -/
def exclude_matches (cfg : FilterConfig) (path : List String) : Prop :=
  matches_regex (lower_string (get_path_string path)) cfg.exclude_regex = true ∨
  path_contains_any (lower_string (get_path_string path)) cfg.exclude_paths = true ∨
  path_contains_any (get_entry_name_lower path) cfg.exclude_names = true ∨
  (∃ e, file_ext path = some e ∧ cfg.exclude_extensions.contains e = true)

theorem matches_regex_isSome {v : String} {r : Option (String → Bool)}
    (h : matches_regex v r = true) : r.isSome = true := by
  cases r with
  | none => simp [matches_regex] at h
  | some f => rfl

theorem path_contains_any_ne_nil {p : String} {vs : List String}
    (h : path_contains_any p vs = true) : vs.isEmpty = false := by
  cases vs with
  | nil => simp [path_contains_any] at h
  | cons v vs => rfl

theorem contains_ne_nil {e : String} {l : List String}
    (h : l.contains e = true) : l.isEmpty = false := by
  cases l with
  | nil => simp at h
  | cons x xs => rfl

/-- `build_filter_config` succeeds exactly with the straight-line compiled
configuration. -/
theorem build_filter_config_ok_shape {raw : ScanFiltersL} {cfg : FilterConfig}
    (hc : build_filter_config raw = .ok cfg) :
    cfg = build_filter_config.build_filter_config_ok raw := by
  unfold build_filter_config at hc
  split at hc
  · split at hc
    · exact absurd hc (by simp)
    · simpa using hc.symm
  · simpa using hc.symm

/-- Flag-level core of C8: whenever the configuration's flags let the
matching exclude criterion be evaluated, `should_include_file` rejects. -/
theorem incl_false_of_exclude (cfg : FilterConfig) (path : List String) (size : Nat)
    (hfe : cfg.flags.has_file_excludes = true)
    (hhit :
      (cfg.flags.needs_path = true ∧
        (matches_regex (lower_string (get_path_string path)) cfg.exclude_regex ||
          path_contains_any (lower_string (get_path_string path)) cfg.exclude_paths) = true) ∨
      (cfg.flags.needs_name = true ∧
        path_contains_any (get_entry_name_lower path) cfg.exclude_names = true) ∨
      (cfg.flags.needs_extension = true ∧
        (match file_ext path with
          | some e => cfg.exclude_extensions.contains e
          | none => false) = true)) :
    should_include_file path size cfg = false := by
  unfold should_include_file
  split
  · rfl
  split
  · rfl
  rcases hhit with ⟨hp, hhit⟩ | ⟨hn, hhit⟩ | ⟨he, hhit⟩
  · simp [hp, hfe, hhit]
  · simp [hn, hfe, hhit]
  · cases hfx : file_ext path with
    | none => rw [hfx] at hhit; exact absurd hhit (by simp)
    | some e =>
      rw [hfx] at hhit
      have hmem : e ∈ cfg.exclude_extensions := by simpa using hhit
      simp [he, hfe, hfx, hmem]

/-- C8: for every raw filter that compiles and every file path and size, if
any exclude criterion matches (exclude regex on the full lowercase path,
exclude path-substring, exclude name-substring, or exclude extension),
`should_include_file` rejects the file — regardless of how many include
criteria also match: exclude takes precedence over include. -/
theorem C8_exclude_precedence (raw : ScanFiltersL) (cfg : FilterConfig)
    (path : List String) (size : Nat)
    (hc : build_filter_config raw = .ok cfg)
    (hex : exclude_matches cfg path) :
    should_include_file path size cfg = false := by
  have hshape := build_filter_config_ok_shape hc
  subst hshape
  rcases hex with h | h | h | ⟨e, he, hmem⟩
  · have hsome := matches_regex_isSome h
    refine incl_false_of_exclude _ path size ?_ (Or.inl ⟨?_, ?_⟩)
    · simp only [build_filter_config.build_filter_config_ok] at hsome ⊢
      simp [hsome]
    · simp only [build_filter_config.build_filter_config_ok] at hsome ⊢
      simp [hsome]
    · simp [h]
  · have hne := path_contains_any_ne_nil h
    refine incl_false_of_exclude _ path size ?_ (Or.inl ⟨?_, ?_⟩)
    · simp only [build_filter_config.build_filter_config_ok] at hne ⊢
      simp [hne]
    · simp only [build_filter_config.build_filter_config_ok] at hne ⊢
      simp [hne]
    · simp [h]
  · have hne := path_contains_any_ne_nil h
    refine incl_false_of_exclude _ path size ?_ (Or.inr (Or.inl ⟨?_, ?_⟩))
    · simp only [build_filter_config.build_filter_config_ok] at hne ⊢
      simp [hne]
    · simp only [build_filter_config.build_filter_config_ok] at hne ⊢
      simp [hne]
    · exact h
  · have hne := contains_ne_nil hmem
    refine incl_false_of_exclude _ path size ?_ (Or.inr (Or.inr ⟨?_, ?_⟩))
    · simp only [build_filter_config.build_filter_config_ok] at hne ⊢
      simp [hne]
    · simp only [build_filter_config.build_filter_config_ok] at hne ⊢
      simp [hne]
    · simp only [build_filter_config.build_filter_config_ok, he] at hmem ⊢
      simpa using hmem

/-- A raw filter excluding name substring `tmp` while including extension
`txt` (both criteria in play for the witness file). -/
def raw_tmp_txt : ScanFiltersL :=
  ⟨["txt"], [], [], ["tmp"], none, none, none, none, [], []⟩

/-- C8 witness: `a.tmp.txt` matches the include-extension criterion `txt`
and the exclude-name criterion `tmp`; it is rejected, while a file matching
only the include criterion is accepted. -/
theorem C8_exclude_precedence_witness :
    (build_filter_config.build_filter_config_ok raw_tmp_txt).include_extensions.contains
        "txt" = true ∧
    file_ext ["r", "a.tmp.txt"] = some "txt" ∧
    should_include_file ["r", "a.tmp.txt"] 1
        (build_filter_config.build_filter_config_ok raw_tmp_txt) = false ∧
    should_include_file ["r", "b.txt"] 1
        (build_filter_config.build_filter_config_ok raw_tmp_txt) = true := by
  refine ⟨by decide, by decide, ?_, by decide⟩
  exact C8_exclude_precedence raw_tmp_txt _ ["r", "a.tmp.txt"] 1 rfl
    (Or.inr (Or.inr (Or.inl (by decide))))

/-! ### C9 — the `read` action -/

theorem b64_index_char : ∀ n, n < 64 → b64_index (b64_char n) = some n := by decide

theorem b64_char_ne_eq : ∀ n, n < 64 → b64_char n ≠ '=' := by decide

theorem grp_div (x y c : Nat) (hc : 0 < c) (hy : y < c) : (x * c + y) / c = x := by
  rw [Nat.add_comm, Nat.add_mul_div_right _ _ hc, Nat.div_eq_of_lt hy, Nat.zero_add]

theorem grp_mod (x y c : Nat) (hy : y < c) : (x * c + y) % c = y := by
  rw [Nat.add_comm, Nat.add_mul_mod_self_right, Nat.mod_eq_of_lt hy]

/-- Decoding inverts encoding on byte lists. -/
theorem b64_roundtrip : ∀ (bytes : List Nat), (∀ b ∈ bytes, b < 256) →
    b64_decode (b64_encode bytes) = some bytes
  | [], _ => rfl
  | [a], h => by
    have ha : a < 256 := h a (by simp)
    have h1 : a / 4 < 64 := by omega
    have h2 : a % 4 * 16 < 64 := by omega
    unfold b64_encode b64_decode
    rw [if_pos ⟨rfl, rfl, rfl⟩, b64_index_char _ h1, b64_index_char _ h2]
    simp only [Option.bind_eq_bind, Option.some_bind, Option.pure_def,
      Option.some.injEq, List.cons.injEq, and_true]
    rw [Nat.mul_div_cancel _ (by norm_num : (0 : Nat) < 16)]
    omega
  | [a, b], h => by
    have ha : a < 256 := h a (by simp)
    have hb : b < 256 := h b (by simp)
    have h1 : a / 4 < 64 := by omega
    have h2 : a % 4 * 16 + b / 16 < 64 := by omega
    have h3 : b % 16 * 4 < 64 := by omega
    unfold b64_encode b64_decode
    rw [if_neg (fun hx => b64_char_ne_eq _ h3 hx.1), if_pos ⟨rfl, rfl⟩,
      b64_index_char _ h1, b64_index_char _ h2, b64_index_char _ h3]
    simp only [Option.bind_eq_bind, Option.some_bind, Option.pure_def,
      Option.some.injEq, List.cons.injEq, and_true]
    rw [grp_div (a % 4) (b / 16) 16 (by norm_num) (by omega),
      grp_mod (a % 4) (b / 16) 16 (by omega),
      Nat.mul_div_cancel _ (by norm_num : (0 : Nat) < 4)]
    omega
  | a :: b :: c :: rest, h => by
    have ha : a < 256 := h a (by simp)
    have hb : b < 256 := h b (by simp)
    have hc : c < 256 := h c (by simp)
    have h1 : a / 4 < 64 := by omega
    have h2 : a % 4 * 16 + b / 16 < 64 := by omega
    have h3 : b % 16 * 4 + c / 64 < 64 := by omega
    have h4 : c % 64 < 64 := by omega
    have ih := b64_roundtrip rest (fun x hx => h x (by simp [hx]))
    unfold b64_encode b64_decode
    rw [if_neg (fun hx => b64_char_ne_eq _ h3 hx.1),
      if_neg (fun hx => b64_char_ne_eq _ h4 hx.1),
      b64_index_char _ h1, b64_index_char _ h2, b64_index_char _ h3, b64_index_char _ h4]
    simp only [Option.bind_eq_bind, Option.some_bind]
    rw [ih]
    simp only [Option.bind_eq_bind, Option.some_bind, Option.pure_def,
      Option.some.injEq, List.cons.injEq, and_true]
    rw [grp_div (a % 4) (b / 16) 16 (by norm_num) (by omega),
      grp_mod (a % 4) (b / 16) 16 (by omega),
      grp_div (b % 16) (c / 64) 4 (by norm_num) (by omega),
      grp_mod (b % 16) (c / 64) 4 (by omega)]
    omega

/-- C9: a `read` request for a non-existent path gets `path-not-found`, for
an existing non-file target gets `not-a-file`, for a file over 5 MiB gets
`file-too-large`, and otherwise the reply carries a base64 text that
decodes to exactly the file's bytes. -/
theorem C9_remote_read (target : Option RFsNode) :
    (target = none → handle_remote_read target = .errorR "path-not-found") ∧
    (target = some .dirN → handle_remote_read target = .errorR "not-a-file") ∧
    (∀ bytes, target = some (.fileN bytes) → bytes.length > 5 * 1024 * 1024 →
      handle_remote_read target = .errorR "file-too-large") ∧
    (∀ bytes, target = some (.fileN bytes) → bytes.length ≤ 5 * 1024 * 1024 →
      (∀ b ∈ bytes, b < 256) →
      handle_remote_read target = .completeR (b64_encode bytes) ∧
        b64_decode (b64_encode bytes) = some bytes) := by
  refine ⟨?_, ?_, ?_, ?_⟩
  · intro ht; subst ht; rfl
  · intro ht; subst ht; rfl
  · intro bytes ht hbig
    subst ht
    simp [handle_remote_read, hbig]
  · intro bytes ht hsmall hvalid
    subst ht
    constructor
    · simp [handle_remote_read]
      omega
    · exact b64_roundtrip bytes hvalid

/-- C9 witness: a 6 MiB file is refused as too large; a 10-byte file is
returned as base64 that decodes to exactly those bytes. -/
theorem C9_remote_read_witness :
    (handle_remote_read (some (.fileN (List.replicate (6 * 1024 * 1024) 0))) =
      .errorR "file-too-large") ∧
    (handle_remote_read (some (.fileN [10, 20, 30, 40, 50, 60, 70, 80, 90, 100])) =
      .completeR (b64_encode [10, 20, 30, 40, 50, 60, 70, 80, 90, 100]) ∧
      b64_decode (b64_encode [10, 20, 30, 40, 50, 60, 70, 80, 90, 100]) =
        some [10, 20, 30, 40, 50, 60, 70, 80, 90, 100]) :=
  ⟨(C9_remote_read (some (.fileN (List.replicate (6 * 1024 * 1024) 0)))).2.2.1
      (List.replicate (6 * 1024 * 1024) 0) rfl
      (by rw [List.length_replicate]; norm_num),
    (C9_remote_read (some (.fileN [10, 20, 30, 40, 50, 60, 70, 80, 90, 100]))).2.2.2
      [10, 20, 30, 40, 50, 60, 70, 80, 90, 100] rfl (by norm_num) (by decide)⟩

/-! ### C7 — progress totals are monotone -/

/-- The `totalBytes` values carried by the Progress events, in emission
order. -/
def progress_totals (events : List ScanEventL) : List Nat :=
  events.filterMap (fun e =>
    match e with
    | .progress s => some s.total_bytes
    | _ => none)

theorem progress_totals_append (l₁ l₂ : List ScanEventL) :
    progress_totals (l₁ ++ l₂) = progress_totals l₁ ++ progress_totals l₂ := by
  simp [progress_totals]

theorem chain'_concat_le {l : List Nat} {a : Nat}
    (h1 : List.Chain' (· ≤ ·) l)
    (h2 : ∀ x ∈ l.getLast?, x ≤ a) :
    List.Chain' (· ≤ ·) (l ++ [a]) := by
  rw [List.chain'_append]
  exact ⟨h1, List.chain'_singleton a, fun x hx y hy => by
    simp only [List.head?_cons, Option.mem_def, Option.some.injEq] at hy
    subst hy
    exact h2 x hx⟩

/-- Loop invariant: the emitted progress totals form a non-decreasing chain
whose last element is at most `last_emitted_bytes`. -/
theorem run_scan_loop_monotone (config : ScanConfigL) (root : List String)
    (scan_id : Option String) (fuel : Nat) (cancel timer : Nat → Bool)
    (es : List WalkEntry) (k : Nat) (st : LoopState)
    (h1 : List.Chain' (· ≤ ·) (progress_totals st.events))
    (h2 : ∀ x ∈ (progress_totals st.events).getLast?, x ≤ st.last_emitted_bytes) :
    List.Chain' (· ≤ ·)
      (progress_totals
        (run_scan_loop config root scan_id fuel cancel timer es k st).1.events) := by
  induction es generalizing k st with
  | nil => simpa [run_scan_loop] using h1
  | cons e rest ih =>
    simp only [run_scan_loop]
    split
    · simpa [progress_totals_append, progress_totals] using h1
    · apply ih
      · split
        · exact h1
        · split
          · split
            · rename_i hguard
              simp only [progress_totals_append]
              refine chain'_concat_le h1 (fun x hx => ?_)
              calc x ≤ st.last_emitted_bytes := h2 x hx
                _ ≤ _ := hguard
            · exact h1
          · exact h1
      · split
        · exact h2
        · split
          · split
            · intro x hx
              simp only [progress_totals, List.filterMap_append, List.filterMap_cons,
                List.filterMap_nil] at hx
              rw [List.getLast?_concat] at hx
              simp only [Option.mem_def, Option.some.injEq] at hx
              subst hx
              exact le_refl _
            · exact h2
          · exact h2

/-- C7: within one scan, the sequence of `totalBytes` values carried by the
emitted Progress events is non-decreasing: the loop emits a compact
snapshot only when its total byte count is at least the previously emitted
total (and updates that bound to the emitted value). -/
theorem C7_progress_monotone (config : ScanConfigL) (root : List String)
    (scan_id : Option String) (fuel : Nat) (cancel timer : Nat → Bool)
    (entries : List WalkEntry) :
    List.Chain' (· ≤ ·)
      (progress_totals
        (run_scan config root scan_id fuel cancel timer entries).1.events) := by
  simp only [run_scan]
  have hbase := run_scan_loop_monotone config root scan_id fuel cancel timer entries 0
    ⟨ScanState.init, 0, 0, []⟩ (by simp [progress_totals]) (by simp [progress_totals])
  split
  · exact hbase
  · simpa [progress_totals, List.filterMap_append] using hbase

/-! ### C5 — cancellation -/

def is_progress : ScanEventL → Bool
  | .progress _ => true
  | _ => false

def is_cancelled : ScanEventL → Bool
  | .cancelled _ => true
  | _ => false

/-- If some cancellation check within the walk observes the flag set, the
loop returns early with `cancelled = true`, having emitted the progress
events so far followed by exactly the one `Cancelled` event. -/
theorem run_scan_loop_cancelled (config : ScanConfigL) (root : List String)
    (scan_id : Option String) (fuel : Nat) (cancel timer : Nat → Bool)
    (es : List WalkEntry) (k : Nat) (st : LoopState)
    (hc : ∃ i, i < es.length ∧ cancel (k + i) = true)
    (hpre : ∀ e ∈ st.events, is_progress e = true) :
    (run_scan_loop config root scan_id fuel cancel timer es k st).2 = true ∧
    ∃ pre, (run_scan_loop config root scan_id fuel cancel timer es k st).1.events =
        pre ++ [.cancelled "Scan cancelled"] ∧
      ∀ e ∈ pre, is_progress e = true := by
  induction es generalizing k st with
  | nil =>
    obtain ⟨i, hi, _⟩ := hc
    exact absurd hi (by simp)
  | cons e rest ih =>
    simp only [run_scan_loop]
    split
    · exact ⟨rfl, st.events, rfl, hpre⟩
    · rename_i hck
      have hc' : ∃ i, i < rest.length ∧ cancel (k + 1 + i) = true := by
        obtain ⟨i, hi, hci⟩ := hc
        cases i with
        | zero =>
          rw [Nat.add_zero] at hci
          exact absurd hci (by simpa using hck)
        | succ j =>
          refine ⟨j, by simpa using hi, ?_⟩
          have harith : k + (j + 1) = k + 1 + j := by omega
          rwa [harith] at hci
      apply ih _ _ hc'
      split
      · exact hpre
      · split
        · split
          · intro x hx
            rcases List.mem_append.mp hx with hx | hx
            · exact hpre x hx
            · simp only [List.mem_singleton] at hx
              subst hx
              rfl
          · exact hpre
        · exact hpre

/-- C5: if the cancellation flag is observed set at one of the per-entry
checks, `run_scan` stops there: its event log is some progress events
followed by exactly one Cancelled event — so no Progress or Complete event
follows it for that scan — and it returns success, not an error. -/
theorem C5_cancellation (config : ScanConfigL) (root : List String)
    (scan_id : Option String) (fuel : Nat) (cancel timer : Nat → Bool)
    (entries : List WalkEntry)
    (h : ∃ i, i < entries.length ∧ cancel i = true) :
    (run_scan config root scan_id fuel cancel timer entries).2 = .ok () ∧
    (∃ pre,
      (run_scan config root scan_id fuel cancel timer entries).1.events =
          pre ++ [.cancelled "Scan cancelled"] ∧
        ∀ e ∈ pre, is_progress e = true) ∧
    ((run_scan config root scan_id fuel cancel timer entries).1.events.filter
        is_cancelled).length = 1 := by
  obtain ⟨hcanc, pre, hev, hprog⟩ :=
    run_scan_loop_cancelled config root scan_id fuel cancel timer entries 0
      ⟨ScanState.init, 0, 0, []⟩ (by simpa using h) (by simp)
  simp only [run_scan, hcanc, if_pos]
  refine ⟨by trivial, ⟨pre, hev, hprog⟩, ?_⟩
  rw [hev, List.filter_append]
  have hnil : pre.filter is_cancelled = [] := by
    rw [List.filter_eq_nil_iff]
    intro a ha
    have := hprog a ha
    cases a <;> simp_all [is_progress, is_cancelled]
  rw [hnil]
  rfl

/-- C5 witness: a scan over one entry whose first check observes the flag
set yields exactly the single Cancelled event and the Ok result. -/
theorem C5_cancellation_witness :
    (run_scan trivial_config ["r"] none 1 (fun _ => true) (fun _ => false)
        [.dirE ["r"]]).2 = .ok () ∧
    (∃ pre,
      (run_scan trivial_config ["r"] none 1 (fun _ => true) (fun _ => false)
          [.dirE ["r"]]).1.events = pre ++ [.cancelled "Scan cancelled"] ∧
        ∀ e ∈ pre, is_progress e = true) ∧
    ((run_scan trivial_config ["r"] none 1 (fun _ => true) (fun _ => false)
        [.dirE ["r"]]).1.events.filter is_cancelled).length = 1 :=
  C5_cancellation trivial_config ["r"] none 1 (fun _ => true) (fun _ => false)
    [.dirE ["r"]] ⟨0, by decide, rfl⟩

/-- C6 witness: the amended TopFiles statement at a concrete update
sequence (two positive-size files, one zero-size file). -/
theorem C6_topfiles_witness :
    (fold_largest [(["a"], 5), (["b"], 7), (["c"], 0)]).length =
        min 10 ([(["a"], 5), (["b"], 7), (["c"], 0)].filter (fun u => 0 < u.2)).length ∧
    (∀ f ∈ fold_largest [(["a"], 5), (["b"], 7), (["c"], 0)], 0 < f.size_bytes) ∧
    (fold_largest [(["a"], 5), (["b"], 7), (["c"], 0)]).Pairwise
        (fun a b => b.size_bytes ≤ a.size_bytes) :=
  C6_topfiles [(["a"], 5), (["b"], 7), (["c"], 0)]

/-! ### C1/C2 machinery: paths, entry-list algebra, walk structure -/

theorem path_parent_eq_ite (p : List String) :
    path_parent p = if p.isEmpty then none else some p.dropLast := by
  cases p <;> rfl

theorem path_parent_concat (q : List String) (x : String) :
    path_parent (q ++ [x]) = some q := by
  rw [path_parent_eq_ite]
  simp

theorem path_parent_some {p q : List String} (h : path_parent p = some q) :
    ∃ x, p = q ++ [x] := by
  cases p with
  | nil => exact absurd h (by simp [path_parent])
  | cons a as =>
    simp only [path_parent, Option.some.injEq] at h
    refine ⟨(a :: as).getLast (by simp), ?_⟩
    rw [← h]
    exact (List.dropLast_append_getLast (by simp)).symm

theorem path_parent_some_length {p q : List String} (h : path_parent p = some q) :
    q <+: p ∧ p.length = q.length + 1 := by
  obtain ⟨x, rfl⟩ := path_parent_some h
  exact ⟨List.prefix_append q [x], by simp⟩

theorem pref_eq_of_length {l₁ l₂ p : List String}
    (h1 : l₁ <+: p) (h2 : l₂ <+: p) (hl : l₁.length = l₂.length) : l₁ = l₂ :=
  (List.prefix_of_prefix_length_le h1 h2 (le_of_eq hl)).eq_of_length hl

theorem dir_bytes_in_append (filters : FilterConfig) (q : List String)
    (es₁ es₂ : List WalkEntry) :
    dir_bytes_in filters q (es₁ ++ es₂) =
      dir_bytes_in filters q es₁ + dir_bytes_in filters q es₂ := by
  induction es₁ with
  | nil => simp [dir_bytes_in]
  | cons e rest ih =>
    cases e <;> simp [dir_bytes_in, ih] <;> omega

theorem children_in_append (root : List String) (filters : FilterConfig)
    (q : List String) (es₁ es₂ : List WalkEntry) :
    children_in root filters q (es₁ ++ es₂) =
      children_in root filters q es₁ ++ children_in root filters q es₂ := by
  induction es₁ with
  | nil => simp [children_in]
  | cons e rest ih =>
    cases e <;> simp [children_in, ih]

theorem included_files_append (filters : FilterConfig) (es₁ es₂ : List WalkEntry) :
    included_files filters (es₁ ++ es₂) =
      included_files filters es₁ ++ included_files filters es₂ := by
  induction es₁ with
  | nil => simp [included_files]
  | cons e rest ih =>
    cases e <;> simp [included_files, ih]

/-- Entries none of which sit directly under `q` add no direct bytes at `q`. -/
theorem dir_bytes_in_eq_zero {filters : FilterConfig} {q : List String}
    {es : List WalkEntry}
    (h : ∀ e ∈ es, path_parent e.entry_path ≠ some q) :
    dir_bytes_in filters q es = 0 := by
  induction es with
  | nil => rfl
  | cons e rest ih =>
    have hrest := ih (fun e' he' => h e' (List.mem_cons_of_mem _ he'))
    cases e with
    | dirE p => simpa [dir_bytes_in] using hrest
    | fileE p s =>
      have hp := h _ (List.mem_cons_self _ _)
      simp only [WalkEntry.entry_path] at hp
      simp [dir_bytes_in, hp, hrest]

/-- Entries none of which sit directly under `q` add no child edges at `q`. -/
theorem children_in_eq_nil {root : List String} {filters : FilterConfig}
    {q : List String} {es : List WalkEntry}
    (h : ∀ e ∈ es, path_parent e.entry_path ≠ some q) :
    children_in root filters q es = [] := by
  induction es with
  | nil => rfl
  | cons e rest ih =>
    have hrest := ih (fun e' he' => h e' (List.mem_cons_of_mem _ he'))
    cases e with
    | dirE p =>
      have hp := h _ (List.mem_cons_self _ _)
      simp only [WalkEntry.entry_path] at hp
      simp [children_in, hp, hrest]
    | fileE p s => simpa [children_in] using hrest

/-- Every child edge recorded at `q` points directly beneath `q`. -/
theorem children_in_parent {root : List String} {filters : FilterConfig}
    {q : List String} {es : List WalkEntry} :
    ∀ p ∈ children_in root filters q es, path_parent p = some q := by
  induction es with
  | nil => simp [children_in]
  | cons e rest ih =>
    cases e with
    | dirE p' =>
      intro p hp
      simp only [children_in] at hp
      rcases List.mem_append.mp hp with hp | hp
      · split at hp
        · rename_i hcond
          simp only [List.mem_singleton] at hp
          subst hp
          exact hcond.2
        · simp at hp
      · exact ih p hp
    | fileE p' s =>
      intro p hp
      simp only [children_in] at hp
      exact ih p hp

mutual

/-- Every entry of a subtree's walk lies at or below the subtree's own
path. -/
theorem walkTree_under (t : FsTree) (base : List String) :
    ∀ e ∈ walkTree t base, (base ++ [t.name]) <+: e.entry_path := by
  match t with
  | .file n s =>
    intro e he
    simp only [walkTree, List.mem_singleton] at he
    subst he
    exact List.prefix_rfl
  | .dir n cs =>
    intro e he
    simp only [walkTree, List.mem_cons] at he
    rcases he with rfl | he
    · exact List.prefix_rfl
    · exact ((walkForest_under cs (base ++ [n])) e he).1

/-- Every entry of a forest's walk lies strictly below the base. -/
theorem walkForest_under (cs : List FsTree) (b : List String) :
    ∀ e ∈ walkForest cs b, b <+: e.entry_path ∧ b.length < e.entry_path.length := by
  match cs with
  | [] => intro e he; simp [walkForest] at he
  | t :: ts =>
    intro e he
    simp only [walkForest, List.mem_append] at he
    rcases he with he | he
    · have h := walkTree_under t b e he
      constructor
      · exact (List.prefix_append b [t.name]).trans h
      · have := h.length_le
        simp only [List.length_append, List.length_cons, List.length_nil] at this
        omega
    · exact walkForest_under ts b e he

end

/-! ### C1/C2 machinery: the loop as a fold, and the folded maps -/

/-- With cancellation never observed, the loop is the plain fold of
`scan_step` over the entries; emission touches neither the aggregation
state nor the processed counter, and the loop does not exit early. -/
theorem run_scan_loop_no_cancel (config : ScanConfigL) (root : List String)
    (scan_id : Option String) (fuel : Nat) (timer : Nat → Bool) :
    ∀ (es : List WalkEntry) (k : Nat) (st : LoopState),
    (run_scan_loop config root scan_id fuel (fun _ => false) timer es k st).1.scan =
        es.foldl (fun s e => (scan_step root config.filters s e).1) st.scan ∧
    (run_scan_loop config root scan_id fuel (fun _ => false) timer es k st).1.processed =
        st.processed + es.length ∧
    (run_scan_loop config root scan_id fuel (fun _ => false) timer es k st).2 = false
  | [], k, st => ⟨rfl, by simp [run_scan_loop], rfl⟩
  | e :: rest, k, st => by
    simp only [run_scan_loop]
    rw [if_neg (by simp)]
    have key : ∀ st2 : LoopState,
        st2.scan = (scan_step root config.filters st.scan e).1 →
        st2.processed = st.processed + 1 →
        (run_scan_loop config root scan_id fuel (fun _ => false) timer rest (k + 1) st2).1.scan =
            (e :: rest).foldl (fun s e => (scan_step root config.filters s e).1) st.scan ∧
        (run_scan_loop config root scan_id fuel (fun _ => false) timer rest (k + 1) st2).1.processed =
            st.processed + (e :: rest).length ∧
        (run_scan_loop config root scan_id fuel (fun _ => false) timer rest (k + 1) st2).2 = false := by
      intro st2 hs hp
      obtain ⟨i1, i2, i3⟩ :=
        run_scan_loop_no_cancel config root scan_id fuel timer rest (k + 1) st2
      refine ⟨?_, ?_, i3⟩
      · rw [i1, hs, List.foldl_cons]
      · rw [i2, hp]
        simp only [List.length_cons]
        omega
    apply key
    · split
      · rfl
      · split
        · split
          · rfl
          · rfl
        · rfl
    · split
      · rfl
      · split
        · split
          · rfl
          · rfl
        · rfl

/-- The folded stats map: direct bytes at `q` are the included-file sizes
directly under `q`. -/
theorem scan_fold_stats (root : List String) (filters : FilterConfig) :
    ∀ (es : List WalkEntry) (st : ScanState) (q : List String),
    (((es.foldl (fun s e => (scan_step root filters s e).1) st).stats q)).direct_bytes =
      (st.stats q).direct_bytes + dir_bytes_in filters q es
  | [], st, q => by simp [dir_bytes_in]
  | e :: rest, st, q => by
    rw [List.foldl_cons]
    rw [scan_fold_stats root filters rest ((scan_step root filters st e).1) q]
    cases e with
    | dirE p =>
      simp only [scan_step]
      split
      · simp [dir_bytes_in]
      · cases hpp : path_parent p with
        | none => simp [dir_bytes_in]
        | some parent =>
          simp only
          by_cases hq : q = parent
          · subst hq
            simp [map_update, dir_bytes_in]
          · simp [map_update, hq, dir_bytes_in]
    | fileE p s =>
      simp only [scan_step]
      split
      · rename_i hnot
        have hfalse : should_include_file p s filters = false := by
          simpa using hnot
        simp [dir_bytes_in, hfalse]
      · rename_i hyes
        have htrue : should_include_file p s filters = true := by
          simpa using hyes
        cases hpp : path_parent p with
        | none => simp [dir_bytes_in, hpp]
        | some parent =>
          simp only
          by_cases hq : q = parent
          · subst hq
            simp only [map_update, if_pos rfl, dir_bytes_in, hpp, htrue]
            simp
            omega
          · simp [map_update, hq, dir_bytes_in, hpp, htrue, Ne.symm hq]

/-- The folded children map: the child edges at `q` are the unskipped
directories directly under `q`, in walk order. -/
theorem scan_fold_children (root : List String) (filters : FilterConfig) :
    ∀ (es : List WalkEntry) (st : ScanState) (q : List String),
    ((es.foldl (fun s e => (scan_step root filters s e).1) st).children q) =
      st.children q ++ children_in root filters q es
  | [], st, q => by simp [children_in]
  | e :: rest, st, q => by
    rw [List.foldl_cons]
    rw [scan_fold_children root filters rest ((scan_step root filters st e).1) q]
    cases e with
    | dirE p =>
      simp only [scan_step]
      split
      · rename_i hskip
        simp [children_in, hskip]
      · rename_i hnoskip
        cases hpp : path_parent p with
        | none => simp [children_in, hpp, hnoskip]
        | some parent =>
          simp only
          by_cases hq : q = parent
          · subst hq
            simp [map_update, children_in, hpp, hnoskip]
          · simp [map_update, hq, children_in, hpp, hnoskip, Ne.symm hq]
    | fileE p s =>
      simp only [scan_step]
      split
      · simp [children_in]
      · cases hpp : path_parent p with
        | none => simp [children_in]
        | some parent => simp [children_in]

/-- The folded TopFiles list: the `update_largest_files` calls are exactly
the included files of the walk, in order. -/
theorem scan_fold_largest (root : List String) (filters : FilterConfig) :
    ∀ (es : List WalkEntry) (st : ScanState),
    ((es.foldl (fun s e => (scan_step root filters s e).1) st).largest_files) =
      (included_files filters es).foldl
        (fun l u => update_largest_files l u.1 u.2 10) st.largest_files
  | [], st => by simp [included_files]
  | e :: rest, st => by
    rw [List.foldl_cons]
    rw [scan_fold_largest root filters rest ((scan_step root filters st e).1)]
    cases e with
    | dirE p =>
      simp only [scan_step]
      split
      · simp [included_files]
      · cases hpp : path_parent p with
        | none => simp [included_files]
        | some parent => simp [included_files]
    | fileE p s =>
      simp only [scan_step]
      split
      · rename_i hnot
        have hfalse : should_include_file p s filters = false := by
          simpa using hnot
        simp [included_files, hfalse]
      · rename_i hyes
        have htrue : should_include_file p s filters = true := by
          simpa using hyes
        cases hpp : path_parent p with
        | none => simp [included_files, htrue]
        | some parent => simp [included_files, htrue]

/-! ### C1/C2 machinery: `build_node` size recurrence and frame -/

theorem build_node_size_zero (cm : List String → List (List String))
    (fm : List String → List ScanFileL) (sm : List String → NodeStats)
    (path : List String) (depth : Nat) (md mf : Option Nat) (sbs : Bool)
    (mc : Option Nat) :
    (build_node cm fm sm 0 path depth md mf sbs mc).size_bytes =
      (sm path).direct_bytes := by
  simp [build_node, build_node_assemble, ScanNodeL.size_bytes]

theorem build_node_size_succ (cm : List String → List (List String))
    (fm : List String → List ScanFileL) (sm : List String → NodeStats)
    (fuel : Nat) (path : List String) (depth : Nat) (md mf : Option Nat)
    (sbs : Bool) (mc : Option Nat) :
    (build_node cm fm sm (fuel + 1) path depth md mf sbs mc).size_bytes =
      (sm path).direct_bytes +
        ((cm path).map (fun c =>
          (build_node cm fm sm fuel c (depth + 1) md mf sbs mc).size_bytes)).sum := by
  simp [build_node, build_node_assemble, List.map_map, Function.comp_def,
    ScanNodeL.size_bytes]

/-- The node size read from one pair of maps equals the size read from
another pair agreeing below `r`, provided child edges only ever point
downward.  (The files map is irrelevant to sizes.) -/
theorem build_node_size_frame (cm₁ cm₂ : List String → List (List String))
    (fm₁ fm₂ : List String → List ScanFileL) (sm₁ sm₂ : List String → NodeStats) :
    ∀ (fuel : Nat) (r : List String) (depth : Nat) (md mf : Option Nat)
      (sbs : Bool) (mc : Option Nat),
    (∀ q, r <+: q → cm₁ q = cm₂ q) →
    (∀ q, r <+: q → (sm₁ q).direct_bytes = (sm₂ q).direct_bytes) →
    (∀ q, r <+: q → ∀ p ∈ cm₁ q, q <+: p) →
    (build_node cm₁ fm₁ sm₁ fuel r depth md mf sbs mc).size_bytes =
      (build_node cm₂ fm₂ sm₂ fuel r depth md mf sbs mc).size_bytes
  | 0, r, depth, md, mf, sbs, mc => fun _ hsm _ => by
    rw [build_node_size_zero, build_node_size_zero]
    exact hsm r List.prefix_rfl
  | fuel + 1, r, depth, md, mf, sbs, mc => fun hcm hsm hdown => by
    rw [build_node_size_succ, build_node_size_succ,
      hsm r List.prefix_rfl, ← hcm r List.prefix_rfl]
    congr 1
    apply congrArg List.sum
    apply List.map_congr_left
    intro c hc
    have hrc : r <+: c := hdown r List.prefix_rfl c hc
    exact build_node_size_frame cm₁ cm₂ fm₁ fm₂ sm₁ sm₂ fuel c (depth + 1) md mf sbs mc
      (fun q hq => hcm q (hrc.trans hq))
      (fun q hq => hsm q (hrc.trans hq))
      (fun q hq => hdown q (hrc.trans hq))

/-! ### C1/C2 machinery: what the walk contributes at each key -/

/-- The direct bytes a forest of siblings contributes at its own base: the
included sizes of the file children. -/
def forest_direct_bytes (filters : FilterConfig) (r : List String)
    (cs : List FsTree) : Nat :=
  (cs.map (fun c => match c with
    | .file nm s => if should_include_file (r ++ [nm]) s filters then s else 0
    | .dir _ _ => 0)).sum

/-- The child edges a forest of siblings contributes at its own base: the
paths of its unskipped directory children. -/
def forest_child_paths (root : List String) (filters : FilterConfig)
    (r : List String) (cs : List FsTree) : List (List String) :=
  cs.filterMap (fun c => match c with
    | .dir m _ =>
      if should_skip_dir root (r ++ [m]) filters then none else some (r ++ [m])
    | .file _ _ => none)

theorem walkForest_parent_ne (cs : List FsTree) (b q : List String)
    (hq : q.length + 1 ≤ b.length) :
    ∀ e ∈ walkForest cs b, path_parent e.entry_path ≠ some q := by
  intro e he hp
  obtain ⟨_, hlen⟩ := path_parent_some_length hp
  obtain ⟨hpref, hlt⟩ := walkForest_under cs b e he
  omega

theorem dir_bytes_walkForest_self (filters : FilterConfig) (cs : List FsTree)
    (r : List String) :
    dir_bytes_in filters r (walkForest cs r) = forest_direct_bytes filters r cs := by
  induction cs with
  | nil => rfl
  | cons c cs' ih =>
    simp only [walkForest]
    rw [dir_bytes_in_append]
    cases c with
    | file nm s =>
      simp [walkTree, dir_bytes_in, path_parent_concat, forest_direct_bytes, ih]
    | dir m ds =>
      have hz : dir_bytes_in filters r (walkForest ds (r ++ [m])) = 0 :=
        dir_bytes_in_eq_zero
          (walkForest_parent_ne ds (r ++ [m]) r (by simp))
      simp [walkTree, dir_bytes_in, hz, forest_direct_bytes, ih]

theorem children_in_walkForest_self (root : List String) (filters : FilterConfig)
    (cs : List FsTree) (r : List String) :
    children_in root filters r (walkForest cs r) =
      forest_child_paths root filters r cs := by
  induction cs with
  | nil => rfl
  | cons c cs' ih =>
    simp only [walkForest]
    rw [children_in_append]
    cases c with
    | file nm s =>
      simp [walkTree, children_in, forest_child_paths, ih]
    | dir m ds =>
      have hz : children_in root filters r (walkForest ds (r ++ [m])) = [] :=
        children_in_eq_nil
          (walkForest_parent_ne ds (r ++ [m]) r (by simp))
      by_cases hskip : should_skip_dir root (r ++ [m]) filters = true
      · simp [walkTree, children_in, hz, forest_child_paths, ih, hskip,
          path_parent_concat]
      · simp only [Bool.not_eq_true] at hskip
        simp [walkTree, children_in, hz, forest_child_paths, ih, hskip,
          path_parent_concat]

/-- A subtree whose name differs from `m` contributes nothing at or below
the sibling path `r ++ [m]`. -/
theorem tree_no_contrib (root : List String) (filters : FilterConfig)
    (c : FsTree) (r q : List String) (m : String)
    (hname : c.name ≠ m) (hq : (r ++ [m]) <+: q) :
    children_in root filters q (walkTree c r) = [] ∧
    dir_bytes_in filters q (walkTree c r) = 0 := by
  have hne : ∀ e ∈ walkTree c r, path_parent e.entry_path ≠ some q := by
    intro e he hp
    have hpref := walkTree_under c r e he
    obtain ⟨hqp, _⟩ := path_parent_some_length hp
    have h1 : (r ++ [m]) <+: e.entry_path := hq.trans hqp
    have heq : r ++ [m] = r ++ [c.name] := pref_eq_of_length h1 hpref (by simp)
    have hm : m = c.name := by simpa using heq
    exact hname hm.symm
  exact ⟨children_in_eq_nil hne, dir_bytes_in_eq_zero hne⟩

/-- A forest none of whose members is named `m` contributes nothing at or
below `r ++ [m]`. -/
theorem forest_no_contrib (root : List String) (filters : FilterConfig)
    (cs : List FsTree) (r q : List String) (m : String)
    (hnames : ∀ c ∈ cs, c.name ≠ m) (hq : (r ++ [m]) <+: q) :
    children_in root filters q (walkForest cs r) = [] ∧
    dir_bytes_in filters q (walkForest cs r) = 0 := by
  induction cs with
  | nil => exact ⟨rfl, rfl⟩
  | cons c cs' ih =>
    obtain ⟨hc1, hc2⟩ :=
      tree_no_contrib root filters c r q m (hnames c (by simp)) hq
    obtain ⟨hf1, hf2⟩ := ih (fun c' hc' => hnames c' (by simp [hc']))
    simp only [walkForest]
    rw [children_in_append, dir_bytes_in_append, hc1, hc2, hf1, hf2]
    simp

theorem nodupNames_head {x : String} {xs : List String}
    (h : nodupNames (x :: xs) = true) :
    xs.contains x = false ∧ nodupNames xs = true := by
  simpa [nodupNames, Bool.and_eq_true] using h

/-- Below a directory child `dir m ds` of a forest with distinct sibling
names, the whole forest's contributions coincide with just that child's. -/
theorem sibling_maps_agree (root : List String) (filters : FilterConfig)
    (cs : List FsTree) (r : List String) (m : String) (ds : List FsTree)
    (hmem : FsTree.dir m ds ∈ cs)
    (hnodup : nodupNames (cs.map FsTree.name) = true) :
    ∀ q, (r ++ [m]) <+: q →
      children_in root filters q (walkForest cs r) =
        children_in root filters q (walkTree (.dir m ds) r) ∧
      dir_bytes_in filters q (walkForest cs r) =
        dir_bytes_in filters q (walkTree (.dir m ds) r) := by
  induction cs with
  | nil => exact absurd hmem (by simp)
  | cons c cs' ih =>
    intro q hq
    simp only [List.map_cons] at hnodup
    obtain ⟨hnotc, hnodup'⟩ := nodupNames_head hnodup
    simp only [walkForest]
    rw [children_in_append, dir_bytes_in_append]
    rcases List.mem_cons.mp hmem with hc | hc
    · subst hc
      have htailnames : ∀ c' ∈ cs', c'.name ≠ m := by
        simp only [FsTree.name] at hnotc
        simp at hnotc
        intro c' hc' hnm
        exact hnotc c' hc' hnm
      obtain ⟨hf1, hf2⟩ := forest_no_contrib root filters cs' r q m htailnames hq
      rw [hf1, hf2]
      simp
    · have hcname : c.name ≠ m := by
        intro hnm
        simp at hnotc
        exact hnotc (FsTree.dir m ds) hc (by rw [hnm]; rfl)
      obtain ⟨hc1, hc2⟩ := tree_no_contrib root filters c r q m hcname hq
      obtain ⟨hi1, hi2⟩ := ih hc hnodup' q hq
      rw [hc1, hc2, hi1, hi2]
      simp

/-! ### C1/C2 machinery: the master size correspondence -/

theorem forestHeight_mem {t : FsTree} : ∀ {cs : List FsTree}, t ∈ cs →
    treeHeight t ≤ forestHeight cs
  | [], h => absurd h (by simp)
  | c :: cs', h => by
    rcases List.mem_cons.mp h with rfl | h'
    · simp only [forestHeight]
      omega
    · have := forestHeight_mem h'
      simp only [forestHeight]
      omega

theorem wfForest_mem {t : FsTree} : ∀ {cs : List FsTree}, t ∈ cs →
    wfForest cs = true → wfTree t = true
  | [], h, _ => absurd h (by simp)
  | c :: cs', h, hwf => by
    simp only [wfForest, Bool.and_eq_true] at hwf
    rcases List.mem_cons.mp h with rfl | h'
    · exact hwf.1
    · exact wfForest_mem h' hwf.2

theorem ne_append_singleton (base : List String) (n : String) :
    base ≠ base ++ [n] := by
  intro h
  have := congrArg List.length h
  simp at this

/-- Summing a function over the kept child paths equals summing the
per-child gated values. -/
theorem sum_over_child_paths (root : List String) (filters : FilterConfig)
    (r : List String) (g : List String → Nat) :
    ∀ cs : List FsTree,
    ((forest_child_paths root filters r cs).map g).sum =
      (cs.map (fun c => match c with
        | .dir m _ =>
          if should_skip_dir root (r ++ [m]) filters then 0 else g (r ++ [m])
        | .file _ _ => 0)).sum
  | [] => rfl
  | c :: cs' => by
    have ih := sum_over_child_paths root filters r g cs'
    simp only [forest_child_paths] at ih ⊢
    rw [List.filterMap_cons]
    cases c with
    | file nm s => simpa using ih
    | dir m ds =>
      by_cases hskip : should_skip_dir root (r ++ [m]) filters = true
      · simp [hskip, ih]
      · simp only [Bool.not_eq_true] at hskip
        simp [hskip, ih]

/-- `keptSumF` splits into the direct file bytes plus the gated recursive
sums of the directory children. -/
theorem keptSumF_split (root : List String) (filters : FilterConfig)
    (r : List String) :
    ∀ cs : List FsTree,
    keptSumF root filters r cs =
      forest_direct_bytes filters r cs +
        (cs.map (fun c => match c with
          | .dir m ds =>
            if should_skip_dir root (r ++ [m]) filters then 0
            else keptSumF root filters (r ++ [m]) ds
          | .file _ _ => 0)).sum
  | [] => rfl
  | c :: cs' => by
    have ih := keptSumF_split root filters r cs'
    cases c with
    | file nm s =>
      simp only [keptSumF, keptSum, forest_direct_bytes, List.map_cons,
        List.sum_cons] at *
      omega
    | dir m ds =>
      simp only [keptSumF, keptSum, forest_direct_bytes, List.map_cons,
        List.sum_cons] at *
      omega

/-- Global-walk contributions below one directory child agree with that
child's own walk (the head edge and the sibling subtrees vanish there). -/
theorem global_maps_below_child (root : List String) (filters : FilterConfig)
    (n : String) (cs : List FsTree) (base : List String) (m : String)
    (ds : List FsTree) (hmem : FsTree.dir m ds ∈ cs)
    (hnodup : nodupNames (cs.map FsTree.name) = true) :
    ∀ q, ((base ++ [n]) ++ [m]) <+: q →
      children_in root filters q (walkTree (.dir n cs) base) =
        children_in root filters q (walkTree (.dir m ds) (base ++ [n])) ∧
      dir_bytes_in filters q (walkTree (.dir n cs) base) =
        dir_bytes_in filters q (walkTree (.dir m ds) (base ++ [n])) := by
  intro q hq
  obtain ⟨h1, h2⟩ :=
    sibling_maps_agree root filters cs (base ++ [n]) m ds hmem hnodup q hq
  have hbq : base ≠ q := by
    intro h
    subst h
    have := hq.length_le
    simp at this
  constructor
  · have hstep : children_in root filters q (walkTree (.dir n cs) base) =
        (if ¬ should_skip_dir root (base ++ [n]) filters ∧
            path_parent (base ++ [n]) = some q
          then [base ++ [n]] else []) ++
          children_in root filters q (walkForest cs (base ++ [n])) := rfl
    rw [hstep, path_parent_concat, if_neg (by simp [hbq]), List.nil_append]
    exact h1
  · have hstep : dir_bytes_in filters q (walkTree (.dir n cs) base) =
        dir_bytes_in filters q (walkForest cs (base ++ [n])) := rfl
    rw [hstep]
    exact h2

/-- Master correspondence: reading the size of an unskipped directory node
from maps that record exactly its walk's contributions yields the kept
byte sum of its entries. -/
theorem master_size (root : List String) (filters : FilterConfig)
    (cs : List FsTree) (n : String) (base : List String) (fuel depth : Nat)
    (md mf : Option Nat) (sbs : Bool) (mc : Option Nat)
    (fm : List String → List ScanFileL)
    (cm : List String → List (List String)) (sm : List String → NodeStats)
    (hcm : ∀ q, cm q = children_in root filters q (walkTree (.dir n cs) base))
    (hsm : ∀ q, (sm q).direct_bytes = dir_bytes_in filters q (walkTree (.dir n cs) base))
    (hwf : wfTree (.dir n cs) = true)
    (hfuel : treeHeight (.dir n cs) ≤ fuel) :
    (build_node cm fm sm fuel (base ++ [n]) depth md mf sbs mc).size_bytes =
      keptSumF root filters (base ++ [n]) cs := by
  cases fuel with
  | zero =>
    exact absurd hfuel (by simp [treeHeight])
  | succ f =>
    have hwf' : nodupNames (cs.map FsTree.name) = true ∧ wfForest cs = true := by
      simpa [wfTree, Bool.and_eq_true] using hwf
    obtain ⟨hnodup, hwff⟩ := hwf'
    rw [build_node_size_succ]
    have hstats : (sm (base ++ [n])).direct_bytes =
        forest_direct_bytes filters (base ++ [n]) cs := by
      rw [hsm]
      simp only [walkTree, dir_bytes_in]
      exact dir_bytes_walkForest_self filters cs (base ++ [n])
    have hchild : cm (base ++ [n]) =
        forest_child_paths root filters (base ++ [n]) cs := by
      rw [hcm]
      simp only [walkTree, children_in, path_parent_concat]
      rw [children_in_walkForest_self]
      simp [ne_append_singleton base n]
    rw [hstats, hchild, sum_over_child_paths]
    rw [keptSumF_split]
    congr 1
    apply congrArg List.sum
    apply List.map_congr_left
    intro c hc
    cases c with
    | file nm s => rfl
    | dir m ds =>
      dsimp only
      split
      · rfl
      · have hagree := global_maps_below_child root filters n cs base m ds hc hnodup
        have hframe :=
          build_node_size_frame cm
            (fun q => children_in root filters q (walkTree (.dir m ds) (base ++ [n])))
            fm fm sm
            (fun q => ⟨dir_bytes_in filters q (walkTree (.dir m ds) (base ++ [n])), 0, 0⟩)
            f ((base ++ [n]) ++ [m]) (depth + 1) md mf sbs mc
            (fun q hq => by rw [hcm q]; exact (hagree q hq).1)
            (fun q hq => by rw [hsm q]; exact (hagree q hq).2)
            (fun q _ p hp => by
              rw [hcm q] at hp
              exact (path_parent_some_length (children_in_parent p hp)).1)
        rw [hframe]
        have hmemwf : wfTree (.dir m ds) = true := wfForest_mem hc hwff
        have hmemfuel : treeHeight (.dir m ds) ≤ f := by
          have h1 : treeHeight (.dir m ds) ≤ forestHeight cs := forestHeight_mem hc
          simp only [treeHeight] at hfuel
          omega
        exact master_size root filters ds m (base ++ [n]) f (depth + 1) md mf sbs mc fm
          _ _ (fun q => rfl) (fun q => rfl) hmemwf hmemfuel
termination_by sizeOf cs
decreasing_by
  simp_wf
  have hlt := List.sizeOf_lt_of_mem hc
  simp only [FsTree.dir.sizeOf_spec] at hlt
  omega

/-! ### C1/C2 — scan totals and skip semantics -/

theorem should_skip_dir_self (root : List String) (filters : FilterConfig) :
    should_skip_dir root root filters = false := by
  simp [should_skip_dir]

/-- End-to-end: a full scan of a well-formed tree (cancellation never
observed) ends with one Complete event whose `totalBytes` is the kept byte
sum — included files all of whose ancestors below the root survive
`should_skip_dir`. -/
theorem run_scan_total (n : String) (cs : List FsTree) (base : List String)
    (filters : FilterConfig) (emit_every : Nat) (scan_id : Option String)
    (timer : Nat → Bool) (hwf : wfTree (.dir n cs) = true) :
    ∃ s, (run_scan ⟨filters, emit_every⟩ (base ++ [n]) scan_id
          (treeHeight (.dir n cs)) (fun _ => false) timer
          (walkTree (.dir n cs) base)).1.events.getLast? = some (.complete s) ∧
      s.total_bytes = keptSum (base ++ [n]) filters base (.dir n cs) := by
  obtain ⟨hscan, hproc, hnc⟩ :=
    run_scan_loop_no_cancel ⟨filters, emit_every⟩ (base ++ [n]) scan_id
      (treeHeight (.dir n cs)) timer (walkTree (.dir n cs) base) 0
      ⟨ScanState.init, 0, 0, []⟩
  simp only [run_scan, hnc, Bool.false_eq_true, if_false]
  refine ⟨_, List.getLast?_concat _, ?_⟩
  simp only [build_summary, Bool.false_eq_true, if_false]
  have hkept : keptSum (base ++ [n]) filters base (.dir n cs) =
      keptSumF (base ++ [n]) filters (base ++ [n]) cs := by
    simp [keptSum, should_skip_dir_self]
  rw [hkept]
  apply master_size (base ++ [n]) filters cs n base (treeHeight (.dir n cs)) 0
    none none true none _ _ _ ?_ ?_ hwf (le_refl _)
  · intro q
    rw [hscan, scan_fold_children]
    rfl
  · intro q
    rw [hscan, scan_fold_stats]
    simp [ScanState.init, NodeStats.zero]

/-- C1 (amended): for every well-formed directory tree and every compiled
filter, the final `ScanSummary.totalBytes` equals the sum of sizes of the
files that pass `should_include_file` and all of whose ancestor directories
strictly below the traversal root are unskipped (`keptSum`).  Files below a
directory that `should_skip_dir` skips pass through the traversal but are
disconnected from the summary tree, so they are not totalled — see the
counterexample for the claim's original reading. -/
theorem C1_total_bytes (n : String) (cs : List FsTree) (base : List String)
    (filters : FilterConfig) (emit_every : Nat) (scan_id : Option String)
    (timer : Nat → Bool) (hwf : wfTree (.dir n cs) = true) :
    ∃ s, (run_scan ⟨filters, emit_every⟩ (base ++ [n]) scan_id
          (treeHeight (.dir n cs)) (fun _ => false) timer
          (walkTree (.dir n cs) base)).1.events.getLast? = some (.complete s) ∧
      s.total_bytes = keptSum (base ++ [n]) filters base (.dir n cs) :=
  run_scan_total n cs base filters emit_every scan_id timer hwf

/-- The raw filter of the skipped-directory scenario: exclude directories
named `bad`. -/
def raw_bad : ScanFiltersL :=
  ⟨[], [], [], ["bad"], none, none, none, none, [], []⟩

/-- Its compiled form. -/
def cfg_bad : FilterConfig := build_filter_config.build_filter_config_ok raw_bad

/-- The tree of the skipped-directory scenario: `/r/bad/f.txt` (5 bytes,
below the excluded directory `bad`) and `/r/g` (7 bytes). -/
def tree_bad : FsTree :=
  .dir "r" [.dir "bad" [.file "f.txt" 5], .file "g" 7]

/-- C1 counterexample: with the compiled exclude-name filter `bad`, the
file `/r/bad/f.txt` passes `should_include_file` (its own name has no
`bad`), so the claim's sum of all `includeFile`-passing files is 12; but
the final summary totals only 7 because the skipped directory's subtree is
disconnected from the result tree. -/
theorem C1_counterexample :
    build_filter_config raw_bad = .ok cfg_bad ∧
    wfTree tree_bad = true ∧
    should_include_file ["r", "bad", "f.txt"] 5 cfg_bad = true ∧
    includeSum cfg_bad [] tree_bad = 12 ∧
    (∃ s, (run_scan ⟨cfg_bad, 10000⟩ ["r"] none (treeHeight tree_bad)
          (fun _ => false) (fun _ => false)
          (walkTree tree_bad [])).1.events.getLast? = some (.complete s) ∧
        s.total_bytes = 7) := by
  refine ⟨rfl, by decide, by decide, by decide, ⟨_, rfl, by decide⟩⟩

/-- C1 witness: scanning `/r` containing a 10-byte and a 20-byte file with
an empty filter ends in a Complete summary totalling 30 bytes. -/
theorem C1_total_bytes_witness :
    ∃ s, (run_scan ⟨trivial_filter, 10000⟩ ["r"] none
          (treeHeight (.dir "r" [.file "a" 10, .file "b" 20]))
          (fun _ => false) (fun _ => false)
          (walkTree (.dir "r" [.file "a" 10, .file "b" 20]) [])).1.events.getLast? =
        some (.complete s) ∧
      s.total_bytes =
        keptSum ["r"] trivial_filter [] (.dir "r" [.file "a" 10, .file "b" 20]) :=
  C1_total_bytes "r" [.file "a" 10, .file "b" 20] [] trivial_filter 10000 none
    (fun _ => false) (by decide)

/-- C2 (amended): skipping a directory disconnects it and its subtree from
the summary's tree and totals, but does not prune the traversal: every
walked entry — including those beneath skipped directories — still
increments the processed counter, and every `should_include_file`-passing
file of the walk — again including those beneath skipped directories —
still feeds the TopFiles tracker. -/
theorem C2_skip_semantics (n : String) (cs : List FsTree) (base : List String)
    (filters : FilterConfig) (emit_every : Nat) (scan_id : Option String)
    (timer : Nat → Bool) (hwf : wfTree (.dir n cs) = true) :
    (run_scan ⟨filters, emit_every⟩ (base ++ [n]) scan_id
        (treeHeight (.dir n cs)) (fun _ => false) timer
        (walkTree (.dir n cs) base)).1.processed =
      (walkTree (.dir n cs) base).length ∧
    (run_scan ⟨filters, emit_every⟩ (base ++ [n]) scan_id
        (treeHeight (.dir n cs)) (fun _ => false) timer
        (walkTree (.dir n cs) base)).1.scan.largest_files =
      (included_files filters (walkTree (.dir n cs) base)).foldl
        (fun l u => update_largest_files l u.1 u.2 10) [] ∧
    (∃ s, (run_scan ⟨filters, emit_every⟩ (base ++ [n]) scan_id
          (treeHeight (.dir n cs)) (fun _ => false) timer
          (walkTree (.dir n cs) base)).1.events.getLast? = some (.complete s) ∧
      s.total_bytes = keptSum (base ++ [n]) filters base (.dir n cs)) := by
  obtain ⟨hscan, hproc, hnc⟩ :=
    run_scan_loop_no_cancel ⟨filters, emit_every⟩ (base ++ [n]) scan_id
      (treeHeight (.dir n cs)) timer (walkTree (.dir n cs) base) 0
      ⟨ScanState.init, 0, 0, []⟩
  refine ⟨?_, ?_, run_scan_total n cs base filters emit_every scan_id timer hwf⟩
  · simp only [run_scan, hnc, Bool.false_eq_true, if_false]
    rw [hproc]
    simp
  · simp only [run_scan, hnc, Bool.false_eq_true, if_false]
    rw [hscan, scan_fold_largest]
    rfl

/-- C2 counterexample: with `bad` excluded, `should_skip_dir` skips
`/r/bad`, yet the walk still visits its child `f.txt`: the processed
counter reaches 4 (the walk's full entry count, `r`, `bad`, `f.txt`, `g`),
and the TopFiles list contains `/r/bad/f.txt` — contradicting the claim
that no entry beneath a skipped directory contributes to the processed
counter or the TopFiles list. -/
theorem C2_counterexample :
    should_skip_dir ["r"] ["r", "bad"] cfg_bad = true ∧
    (walkTree tree_bad []).length = 4 ∧
    (run_scan ⟨cfg_bad, 10000⟩ ["r"] none (treeHeight tree_bad)
        (fun _ => false) (fun _ => false) (walkTree tree_bad [])).1.processed = 4 ∧
    ((run_scan ⟨cfg_bad, 10000⟩ ["r"] none (treeHeight tree_bad)
        (fun _ => false) (fun _ => false)
        (walkTree tree_bad [])).1.scan.largest_files.map ScanFileL.path) =
      ["/r/g", "/r/bad/f.txt"] := by
  exact ⟨by decide, by decide, by decide, by decide⟩

/-- C2 witness: the amended statement at the concrete skipped-directory
scenario. -/
theorem C2_skip_semantics_witness :
    (run_scan ⟨cfg_bad, 10000⟩ ["r"] none (treeHeight tree_bad)
        (fun _ => false) (fun _ => false) (walkTree tree_bad [])).1.processed =
      (walkTree tree_bad []).length ∧
    (run_scan ⟨cfg_bad, 10000⟩ ["r"] none (treeHeight tree_bad)
        (fun _ => false) (fun _ => false)
        (walkTree tree_bad [])).1.scan.largest_files =
      (included_files cfg_bad (walkTree tree_bad [])).foldl
        (fun l u => update_largest_files l u.1 u.2 10) [] ∧
    (∃ s, (run_scan ⟨cfg_bad, 10000⟩ ["r"] none (treeHeight tree_bad)
          (fun _ => false) (fun _ => false)
          (walkTree tree_bad [])).1.events.getLast? = some (.complete s) ∧
      s.total_bytes = keptSum ["r"] cfg_bad [] tree_bad) :=
  C2_skip_semantics "r" [.dir "bad" [.file "f.txt" 5], .file "g" 7] [] cfg_bad
    10000 none (fun _ => false) (by decide)

end Voxara
